import Mathlib

/-!
Verification of the core of a recipe/crafting calculator.

The program has two components:
* a parser (`src/logic/parsing/mod.rs`, built on `nom`) that turns text into a
  `Program` of three sections (`need`, `have`, `recipes`), and
* a resolution engine (`src/logic/evaluation/mod.rs`) that, given a `Program`,
  computes which base items are missing and what stock is left over, crafting
  intermediate items through recipes with a recursion-depth guard.

This file shallowly embeds both components.  Counts are `u64` in the source and
are modelled as `Nat`; the one subtraction in the source that is *not*
saturating (the top-level transfer `*items_available.entry(..).or_default() -=
stack.count`) is modelled as wrapping `u64` subtraction, which is its behaviour
in release builds (debug builds panic on underflow; either way it is not the
clamp-to-zero the specification describes).  The `HashMap`s of the source are
modelled as association lists with insert-or-update semantics; the source never
relies on iteration order except where it sorts explicitly.

Because `have_or_craft_item` contains a `while` loop whose progress depends on
recipe output counts, the evaluator can genuinely diverge; the embedding
therefore threads a fuel parameter.  `none` means the fuel ran out; a result
`some r` produced at some fuel is the result of the source program.
-/

set_option maxRecDepth 100000

namespace RecipeCalc

/-- An item name.  In the source `Item` is a newtype around `String`; equality
and hashing are by exact text. -/
abbrev Item := String

/-- The source's `ItemStack`: a count (`u64`, modelled as `Nat`) together with an item. -/
structure ItemStack where
  count : Nat
  item : Item
deriving DecidableEq, Repr

/-- The source's `Recipe`: one output stack and an ordered list of input stacks. -/
structure Recipe where
  output : ItemStack
  inputs : List ItemStack
deriving DecidableEq, Repr

/-- The source's `Program`: the three parsed sections, in source order. -/
structure Program where
  need_section : List ItemStack
  have_section : List ItemStack
  recipe_section : List Recipe
deriving DecidableEq, Repr

/-! ### Association-list model of `HashMap<Item, u64>` and `HashMap<Item, Recipe>` -/

/-- The `HashMap<Item, u64>` maps of the evaluation context. -/
abbrev CountMap := List (Item × Nat)

/-- The source's `HashMap::get`. -/
def getCount (m : CountMap) (k : Item) : Option Nat :=
  (m.find? (fun kv => kv.1 == k)).map (fun kv => kv.2)

/-- The source's `HashMap::get(..).cloned().unwrap_or_default()`. -/
def getCountD (m : CountMap) (k : Item) : Nat :=
  (getCount m k).getD 0

/-- The source's `HashMap::insert` (update an existing entry in place, otherwise add one). -/
def setCount : CountMap → Item → Nat → CountMap
  | [], k, v => [(k, v)]
  | kv :: rest, k, v => if kv.1 == k then (k, v) :: rest else kv :: setCount rest k v

/-- The source's `*map.entry(k).or_default() += v` (note: this creates the entry even when
`v = 0`). -/
def addCount (m : CountMap) (k : Item) (v : Nat) : CountMap :=
  setCount m k (getCountD m k + v)

/-- The `HashMap<Item, Recipe>` recipe index. -/
abbrev RecipeMap := List (Item × Recipe)

/-- The source's `HashMap::get` on the recipe index. -/
def getRecipe (m : RecipeMap) (k : Item) : Option Recipe :=
  (m.find? (fun kv => kv.1 == k)).map (fun kv => kv.2)

/-- The source's `HashMap::insert` on the recipe index: a later insert for the same key
overwrites the earlier entry (the source logs this case and keeps going). -/
def setRecipe : RecipeMap → Item → Recipe → RecipeMap
  | [], k, v => [(k, v)]
  | kv :: rest, k, v => if kv.1 == k then (k, v) :: rest else kv :: setRecipe rest k v

/-- Unchecked `u64` subtraction `a - b` as it behaves in release builds: it
wraps modulo `2 ^ 64` on underflow (debug builds panic there instead).  Exact
for `a, b < 2 ^ 64`.  The source uses this unchecked `-=` only in the
top-level transfer of `have_or_craft_item`; every other subtraction is
`saturating_sub`. -/
def u64WrapSub (a b : Nat) : Nat :=
  if b ≤ a then a - b else a + (2 ^ 64 - b)

/-! ### The evaluation context (`Context`) -/

/-- The source's `EvaluationError`: the only evaluation failure in the source. -/
inductive EvaluationError where
  | maxDepthExceeded
deriving DecidableEq, Repr

/-- The source's `Context::MAX_DEPTH`. -/
def MAX_DEPTH : Nat := 128

/-- The mutable resolution state `Context`. -/
structure Context where
  /-- Items that can be used for crafting. -/
  items_available : CountMap
  /-- Items that were requested and have been crafted; never reused for crafting. -/
  items_output : CountMap
  /-- Items that are missing but required. -/
  items_needed : CountMap
  /-- A recipe for each item we can craft, keyed by output item. -/
  recipes : RecipeMap
  /-- Current recursion depth, guarded by `MAX_DEPTH`. -/
  depth : Nat
deriving DecidableEq, Repr

/-- The source's `Context::new`: sum the `have` stacks into `items_available` and index the
recipes by output item (later recipes for the same output overwrite earlier
ones). -/
def Context.new (p : Program) : Context :=
  { items_available := p.have_section.foldl (fun m s => addCount m s.item s.count) []
    items_output := []
    items_needed := []
    recipes := p.recipe_section.foldl (fun m r => setRecipe m r.output.item r) []
    depth := 0 }

/-- The source's `Context::add_items`. -/
def addItems (ctx : Context) (s : ItemStack) : Context :=
  { ctx with items_available := addCount ctx.items_available s.item s.count }

/-- The source's `Context::try_use_item`: consume as much of `s` as the available stock
covers (saturating subtraction) and return how much is still uncovered,
together with the updated context. -/
def tryUseItem (ctx : Context) (s : ItemStack) : Nat × Context :=
  match getCount ctx.items_available s.item with
  | some oldCount =>
    let newCount := oldCount - s.count
    let used := oldCount - newCount
    (s.count - used,
      { ctx with items_available := setCount ctx.items_available s.item newCount })
  | none => (s.count, ctx)

/-- The source's `Context::register_need_item`: defensively retry the stock, then add the
remainder to `items_needed`. -/
def registerNeedItem (ctx : Context) (s : ItemStack) : Context :=
  let r := tryUseItem ctx s
  { r.2 with items_needed := addCount r.2.items_needed s.item r.1 }

/-- The `top_level` branch at the end of `Context::have_or_craft_item`:
`*items_available.entry(item).or_default() -= count` (an *unchecked* `u64`
subtraction) followed by `*items_output.entry(item).or_default() += count`. -/
def transferToOutput (ctx : Context) (s : ItemStack) : Context :=
  { ctx with
    items_available :=
      setCount ctx.items_available s.item
        (u64WrapSub (getCountD ctx.items_available s.item) s.count)
    items_output := addCount ctx.items_output s.item s.count }

/-- Evaluator results: `none` means the fuel ran out (the source would still be
running); `some (.error e)` is `Err(e)`; `some (.ok ctx)` is `Ok`. -/
abbrev EvalResult := Option (Except EvaluationError Context)

instance : DecidableEq (Except EvaluationError Context) := fun a b =>
  match a, b with
  | .ok x, .ok y =>
    if h : x = y then .isTrue (congrArg _ h)
    else .isFalse (fun hh => h (Except.ok.inj hh))
  | .error x, .error y =>
    if h : x = y then .isTrue (congrArg _ h)
    else .isFalse (fun hh => h (Except.error.inj hh))
  | .ok _, .error _ => .isFalse (fun hh => Except.noConfusion hh)
  | .error _, .ok _ => .isFalse (fun hh => Except.noConfusion hh)

/-- The mutually recursive pieces of the resolution engine, reified so that
the whole engine is a single function that is structurally recursive on its
fuel (and hence computes by kernel reduction).  One unit of fuel is charged
per call; the source charges nothing, so `none` (out of fuel) only ever
replaces a longer-running computation, never a result. -/
inductive Call where
  /-- A call to `Context::have_or_craft_item`. -/
  | haveOrCraft (itemNeeded : ItemStack) (topLevel : Bool)
  /-- An iteration of the `while items_available.get(..) < count_needed` loop
  inside `have_or_craft_item`. -/
  | craftLoop (target : Item) (countNeeded : Nat) (recipe : Recipe)
  /-- A call to `Context::evaluate_recipe`. -/
  | evalRecipe (recipe : Recipe)
  /-- The `for input in &recipe.inputs` loop of `evaluate_recipe`. -/
  | evalInputs (inputs : List ItemStack)
  /-- The `for need in &program.need_section` loop of `evaluate`. -/
  | evalNeeds (needs : List ItemStack)
deriving Repr

/-- The resolution engine.  Each `Call` arm transliterates the corresponding
piece of `src/logic/evaluation/mod.rs`. -/
def run : Nat → Call → Context → EvalResult
  | 0, _, _ => none
  | fuel + 1, c, ctx =>
    match c with
    -- `Context::have_or_craft_item`
    | .haveOrCraft itemNeeded topLevel =>
      -- consume the existing items we have
      let r := tryUseItem ctx itemNeeded
      let countNeeded := r.1
      let afterCraft : EvalResult :=
        if countNeeded = 0 then some (.ok r.2)
        else
          match getRecipe r.2.recipes itemNeeded.item with
          | some recipe => run fuel (.craftLoop itemNeeded.item countNeeded recipe) r.2
          | none => some (.ok (registerNeedItem r.2 ⟨countNeeded, itemNeeded.item⟩))
      (match afterCraft with
       | some (.ok ctx') =>
         if topLevel then some (.ok (transferToOutput ctx' itemNeeded))
         else some (.ok ctx')
       | other => other)
    -- the crafting `while` loop of `have_or_craft_item`
    | .craftLoop target countNeeded recipe =>
      if countNeeded ≤ getCountD ctx.items_available target then some (.ok ctx)
      else
        (match run fuel (.evalRecipe recipe) ctx with
         | some (.ok ctx') => run fuel (.craftLoop target countNeeded recipe) ctx'
         | other => other)
    -- `Context::evaluate_recipe`: guard the depth, recurse into the inputs,
    -- add the recipe output to the available stock, restore the depth
    | .evalRecipe recipe =>
      if ctx.depth > MAX_DEPTH then some (.error .maxDepthExceeded)
      else
        (match run fuel (.evalInputs recipe.inputs) { ctx with depth := ctx.depth + 1 } with
         | some (.ok ctx') =>
           some (.ok { addItems ctx' recipe.output with depth := ctx'.depth - 1 })
         | other => other)
    | .evalInputs inputs =>
      match inputs with
      | [] => some (.ok ctx)
      | i :: rest =>
        (match run fuel (.haveOrCraft i false) ctx with
         | some (.ok ctx') => run fuel (.evalInputs rest) ctx'
         | other => other)
    | .evalNeeds needs =>
      match needs with
      | [] => some (.ok ctx)
      | n :: rest =>
        (match run fuel (.haveOrCraft n true) ctx with
         | some (.ok ctx') => run fuel (.evalNeeds rest) ctx'
         | other => other)

/-- The source's `Context::have_or_craft_item`. -/
def haveOrCraftItem (fuel : Nat) (itemNeeded : ItemStack) (topLevel : Bool)
    (ctx : Context) : EvalResult :=
  run fuel (.haveOrCraft itemNeeded topLevel) ctx

/-- The source's `Context::evaluate_recipe`. -/
def evaluateRecipe (fuel : Nat) (recipe : Recipe) (ctx : Context) : EvalResult :=
  run fuel (.evalRecipe recipe) ctx

/-- The `for need in &program.need_section` loop of `evaluate`. -/
def needsLoop (fuel : Nat) (needs : List ItemStack) (ctx : Context) : EvalResult :=
  run fuel (.evalNeeds needs) ctx

/-- The source's `Context::cleanup`: drop zero-count entries from `items_needed` and
`items_available`.  (The source also `debug_assert!`s that `items_output` has
no zero entry; release builds compile that check out.) -/
def cleanup (ctx : Context) : Context :=
  { ctx with
    items_needed := ctx.items_needed.filter (fun kv => kv.2 != 0)
    items_available := ctx.items_available.filter (fun kv => kv.2 != 0) }

/-- The source's `evaluate`: build the context, satisfy every need at top level, clean up. -/
def evaluate (fuel : Nat) (p : Program) : EvalResult :=
  match needsLoop fuel p.need_section (Context.new p) with
  | some (.ok ctx) => some (.ok (cleanup ctx))
  | other => other

/-! ### Result views -/

/-- Byte/code-point lexicographic order on strings (UTF-8 byte order on Rust
`String`s coincides with code-point lexicographic order). -/
def charListLe : List Char → List Char → Bool
  | [], _ => true
  | _ :: _, [] => false
  | a :: as, b :: bs =>
    if a.toNat < b.toNat then true
    else if b.toNat < a.toNat then false
    else charListLe as bs

/-- The comparator of `get_needed_items`: `a.item.0.cmp(&b.item.0)`, i.e. raw
code-point order on the item names. -/
def stackLe (a b : ItemStack) : Prop := charListLe a.item.data b.item.data = true

instance : DecidableRel stackLe := fun a b => by unfold stackLe; infer_instance

/-- The source's `Context::get_needed_items`: the `items_needed` entries as stacks, sorted
by item name (`sort_by` is a stable comparison sort; on the distinct keys of a
map any stable sort gives this insertion sort's output). -/
def getNeededItems (ctx : Context) : List ItemStack :=
  List.insertionSort stackLe (ctx.items_needed.map (fun kv => ⟨kv.2, kv.1⟩))

/-- The missing-items view of a (successful) evaluation. -/
def evalMissing (fuel : Nat) (p : Program) : Option (List ItemStack) :=
  match evaluate fuel p with
  | some (.ok ctx) => some (getNeededItems ctx)
  | _ => none

/-- The leftover view of a (successful) evaluation: the `items_available` map
after `cleanup`. -/
def evalAvailable (fuel : Nat) (p : Program) : Option CountMap :=
  match evaluate fuel p with
  | some (.ok ctx) => some ctx.items_available
  | _ => none

/-- Did evaluation succeed? -/
def isOkResult : EvalResult → Bool
  | some (.ok _) => true
  | _ => false

/-- Divergence of the source program: no amount of fuel makes the embedded
evaluator return, i.e. the Rust `while` loop runs forever. -/
def Diverges (p : Program) : Prop := ∀ fuel, evaluate fuel p = none

/-! ### The parser (`src/logic/parsing/mod.rs`)

The source uses `nom` combinators over `&str`.  The embedding works on
`List Char`; for the ASCII delimiters of this grammar, byte positions and
code-point positions coincide.  Parsers whose output value is discarded by
every caller return only the rest of the input. -/

/-- The character class of nom's `space0` (spaces and tabs). -/
def isNomSpace (c : Char) : Bool := c == ' ' || c == '\t'

/-- The character class of nom's `multispace0`. -/
def isNomMultispace (c : Char) : Bool := c == ' ' || c == '\t' || c == '\r' || c == '\n'

/-- The source's `space0`: always succeeds; the matched spaces are discarded by all callers. -/
def dropSpace0 (i : List Char) : List Char := i.dropWhile isNomSpace

/-- The source's `multispace0`: always succeeds; the matched whitespace is discarded. -/
def dropMultispace0 (i : List Char) : List Char := i.dropWhile isNomMultispace

/-- The source's `char(c)`. -/
def pChar (c : Char) : List Char → Option (List Char)
  | x :: rest => if x == c then some rest else none
  | [] => none

/-- The source's `tag(t)`: match the literal `t` as a prefix. -/
def pTag (t : List Char) (i : List Char) : Option (List Char) :=
  if t.isPrefixOf i then some (i.drop t.length) else none

/-- The source's `line_ending`: `"\n"` or `"\r\n"`. -/
def pLineEnding : List Char → Option (List Char)
  | '\n' :: rest => some rest
  | '\r' :: '\n' :: rest => some rest
  | _ => none

/-- The source's `fuzzy_line_ending`: a line ending that may be preceded by spaces. -/
def pFuzzyLineEnding (i : List Char) : Option (List Char) :=
  pLineEnding (dropSpace0 i)

/-- The source's `eof`. -/
def pEof : List Char → Option (List Char)
  | [] => some []
  | _ :: _ => none

/-- The source's `nom::character::complete::u64`: one or more decimal digits, no sign; the
accumulated value is overflow-checked against `u64::MAX`. -/
def pU64 (i : List Char) : Option (List Char × Nat) :=
  let ds := i.takeWhile Char.isDigit
  if ds.isEmpty then none
  else
    let v := ds.foldl (fun acc c => acc * 10 + (c.toNat - '0'.toNat)) 0
    if v < 2 ^ 64 then some (i.drop ds.length, v) else none

/-- The source's `take_while1(|c| c == ' ')`: the separator between count and item name. -/
def pSpaces1 (i : List Char) : Option (List Char) :=
  let tk := i.takeWhile (fun c => c == ' ')
  if tk.isEmpty then none else some (i.drop tk.length)

/-- The characters an item name may contain: `is_not("+=\r\n")`. -/
def isItemChar (c : Char) : Bool := !(c == '+' || c == '=' || c == '\r' || c == '\n')

/-- The source's `is_not("+=\r\n")`: one or more characters outside the set. -/
def pIsNot (i : List Char) : Option (List Char × List Char) :=
  let tk := i.takeWhile isItemChar
  if tk.isEmpty then none else some (i.drop tk.length, tk)

/-- The source's `str::trim` on the matched item text.  The matched characters exclude
`'\r'`/`'\n'`; for the ASCII whitespace that remains, Rust and Lean agree on
what is whitespace. -/
def trimChars (l : List Char) : List Char :=
  ((l.dropWhile Char.isWhitespace).reverse.dropWhile Char.isWhitespace).reverse

/-- The source's `item`: an item name, trimmed of surrounding whitespace. -/
def pItem (i : List Char) : Option (List Char × Item) :=
  match pIsNot i with
  | some (rest, cs) => some (rest, (trimChars cs).asString)
  | none => none

/-- The source's `item_with_count`: `uint`, one-or-more spaces, `item`. -/
def pItemWithCount (i : List Char) : Option (List Char × ItemStack) :=
  match pU64 i with
  | some (i1, count) =>
    match pSpaces1 i1 with
    | some i2 =>
      match pItem i2 with
      | some (i3, it) => some (i3, ⟨count, it⟩)
      | none => none
    | none => none
  | none => none

/-- The source's `delimited(space0, char(c), space0)`: the `=` and `+` separators. -/
def pPadded (c : Char) (i : List Char) : Option (List Char) :=
  match pChar c (dropSpace0 i) with
  | some i1 => some (dropSpace0 i1)
  | none => none

/-- The loop of `separated_list1(plus, item_with_count)` after the first
element: stop (keeping the input before the separator) as soon as the
separator or the element fails.  nom aborts if the separator consumes
nothing, which the `+` separator never does. -/
def pSepPlusLoop : Nat → List ItemStack → List Char → Option (List Char × List ItemStack)
  | 0, _, _ => none
  | fuel + 1, acc, i =>
    match pPadded '+' i with
    | none => some (i, acc.reverse)
    | some i1 =>
      if i1 == i then none
      else
        match pItemWithCount i1 with
        | none => some (i, acc.reverse)
        | some (i2, o) => pSepPlusLoop fuel (o :: acc) i2

/-- The source's `separated_list1(plus, item_with_count)`: the input list of a recipe.
Separator and element each consume at least one character, so a fuel of
`length + 1` never runs out before the loop stops by itself. -/
def pSepPlus1 (i : List Char) : Option (List Char × List ItemStack) :=
  match pItemWithCount i with
  | some (i1, first) => pSepPlusLoop (i1.length + 1) [first] i1
  | none => none

/-- The source's `recipe`: `item_with_count = item_with_count (+ item_with_count)*`. -/
def pRecipe (i : List Char) : Option (List Char × Recipe) :=
  match pItemWithCount i with
  | some (i1, output) =>
    match pPadded '=' i1 with
    | some i2 =>
      match pSepPlus1 i2 with
      | some (i3, inputs) => some (i3, ⟨output, inputs⟩)
      | none => none
    | none => none
  | none => none

/-- The source's `list_item(f)`: `delimited(pair(char('-'), space0), f, alt((fuzzy_line_ending, eof)))`. -/
def pListItem {α : Type} (f : List Char → Option (List Char × α)) (i : List Char) :
    Option (List Char × α) :=
  match pChar '-' i with
  | some i1 =>
    match f (dropSpace0 i1) with
    | some (i2, o) =>
      match pFuzzyLineEnding i2 with
      | some i3 => some (i3, o)
      | none =>
        match pEof i2 with
        | some i3 => some (i3, o)
        | none => none
    | none => none
  | none => none

/-- The loop of `many0(f)`: collect until `f` fails; nom errors out if `f`
succeeds without consuming anything. -/
def pMany0Loop {α : Type} (f : List Char → Option (List Char × α)) :
    Nat → List α → List Char → Option (List Char × List α)
  | 0, _, _ => none
  | fuel + 1, acc, i =>
    match f i with
    | none => some (i, acc.reverse)
    | some (i1, o) =>
      if i1 == i then none
      else pMany0Loop f fuel (o :: acc) i1

/-- The source's `many0(f)`.  Every successful step of the body parsers used here consumes
at least one character, so `length + 1` units of fuel never run out before
the loop stops by itself. -/
def pMany0 {α : Type} (f : List Char → Option (List Char × α)) (i : List Char) :
    Option (List Char × List α) :=
  pMany0Loop f (i.length + 1) [] i

/-- The source's `section(head, body)`: `head ':' fuzzy_line_ending` then `many0(list_item(body))`. -/
def pSection {α : Type} (head : List Char) (f : List Char → Option (List Char × α))
    (i : List Char) : Option (List Char × List α) :=
  match pTag head i with
  | some i1 =>
    match pChar ':' i1 with
    | some i2 =>
      match pFuzzyLineEnding i2 with
      | some i3 => pMany0 (pListItem f) i3
      | none => none
    | none => none
  | none => none

/-- The source's `preceded(multispace0, section("need", item_with_count))`. -/
def pNeedBranch (i : List Char) : Option (List Char × List ItemStack) :=
  pSection "need".data pItemWithCount (dropMultispace0 i)

/-- The source's `preceded(multispace0, section("have", item_with_count))`. -/
def pHaveBranch (i : List Char) : Option (List Char × List ItemStack) :=
  pSection "have".data pItemWithCount (dropMultispace0 i)

/-- The source's `preceded(multispace0, section("recipes", recipe))`. -/
def pRecipesBranch (i : List Char) : Option (List Char × List Recipe) :=
  pSection "recipes".data pRecipe (dropMultispace0 i)

/-- nom's `permutation` over the three section parsers: repeatedly try each
not-yet-satisfied branch in declaration order, restarting after the first
success; stop with a result once all three are satisfied, or with an error
once a full pass makes no progress.  Each recursive call satisfies one
branch, so four rounds always suffice. -/
def progPermLoop :
    Nat → Option (List ItemStack) → Option (List ItemStack) → Option (List Recipe) →
    List Char → Option (List Char × (List ItemStack × List ItemStack × List Recipe))
  | 0, _, _, _, _ => none
  | fuel + 1, ra, rb, rc, i =>
    match ra, pNeedBranch i with
    | none, some (i1, a) => progPermLoop fuel (some a) rb rc i1
    | _, _ =>
      match rb, pHaveBranch i with
      | none, some (i1, b) => progPermLoop fuel ra (some b) rc i1
      | _, _ =>
        match rc, pRecipesBranch i with
        | none, some (i1, c) => progPermLoop fuel ra rb (some c) i1
        | _, _ =>
          match ra, rb, rc with
          | some a, some b, some c => some (i, (a, b, c))
          | _, _, _ => none

/-- The source's `program`: the three sections in any order, wrapped in optional
whitespace (`terminated(permutation(..), multispace0)`). -/
def program (i : List Char) : Option (List Char × Program) :=
  match progPermLoop 4 none none none i with
  | some (i1, (n, h, r)) => some (dropMultispace0 i1, ⟨n, h, r⟩)
  | none => none

/-- The error type of `Program::parse_from_string` (a `String` in the source;
the two message shapes are kept apart here). -/
inductive ParseError where
  /-- The trailing-input error of the source, rendered there as the text
  "Remaining: " followed by the unconsumed remainder: the program rule
  succeeded but did not consume the whole input. -/
  | remaining (rem : List Char)
  /-- The rendered nom error for a failed parse. -/
  | failed
deriving DecidableEq, Repr

/-- The source's `Program::parse_from_string`: accept exactly when `program` consumes the
entire input; otherwise report the unconsumed remainder or the parse failure.
No `Program` is returned on failure. -/
def parse_from_string (input : List Char) : Except ParseError Program :=
  match program input with
  | some ([], output) => .ok output
  | some (rem, _) => .error (.remaining rem)
  | none => .error .failed

/-! ### Concrete programs and claim-level definitions -/

/-- Program text `need: 1 x` / `have: 2 x`, no recipes: stock strictly exceeds the need. -/
def stockTwoProg : Program := ⟨[⟨1, "x"⟩], [⟨2, "x"⟩], []⟩

/-- Program text `need: 1 x` / `have: 1 x`, no recipes: stock exactly covers the need. -/
def stockOneProg : Program := ⟨[⟨1, "x"⟩], [⟨1, "x"⟩], []⟩

/-- Program text `need: 1 x`, no stock, recipe `0 x = 1 y`: a zero-count recipe output. -/
def zeroOutProgA : Program := ⟨[⟨1, "x"⟩], [], [⟨⟨0, "x"⟩, [⟨1, "y"⟩]⟩]⟩

/-- Program text `need: 2 z`, no stock, recipe `0 z = 3 w`: another zero-count output. -/
def zeroOutProgB : Program := ⟨[⟨2, "z"⟩], [], [⟨⟨0, "z"⟩, [⟨3, "w"⟩]⟩]⟩

/-- Program text `need: 1 p`, no stock, recipes `1 p = 1 q` and `1 q = 1 p`: a transitive
recipe cycle. -/
def transCycProg : Program :=
  ⟨[⟨1, "p"⟩], [], [⟨⟨1, "p"⟩, [⟨1, "q"⟩]⟩, ⟨⟨1, "q"⟩, [⟨1, "p"⟩]⟩]⟩

/-- Program text `need: 1 item`, no stock, recipe `1 item = 1 item`: the recipe's output is
directly among its own inputs (the repository's own infinite-loop test). -/
def selfCycProg : Program :=
  ⟨[⟨1, "item"⟩], [], [⟨⟨1, "item"⟩, [⟨1, "item"⟩]⟩]⟩

/-- Distinct item names for the linear chain programs: `nm i` is an `x`
followed by `i` copies of `y` (length-coded, so distinctness is immediate). -/
def nm (i : Nat) : String := ⟨'x' :: List.replicate i 'y'⟩

/-- The chain recipe `1 (nm i) = 1 (nm (i+1))`. -/
def chainRecipe (i : Nat) : Recipe := ⟨⟨1, nm i⟩, [⟨1, nm (i + 1)⟩]⟩

/-- A linear chain: `need: 1 x0`, no stock, recipes `1 xi = 1 x(i+1)` for
`i < len`.  Satisfying the need takes exactly `len` nested craft operations
(the bottom item `x(len)` has no recipe and is registered as missing). -/
def lineProg (len : Nat) : Program :=
  ⟨[⟨1, nm 0⟩], [], (List.range len).map chainRecipe⟩

/-- The available map after the chain levels `i, i+1, ..., len-1` have been
crafted and unwound: one unit of each, deepest first. -/
def chainAvail (len i : Nat) : CountMap :=
  if h : i < len then chainAvail len (i + 1) ++ [(nm i, 1)] else []
termination_by len - i

/-- Program text `need: 1 middle` and `1 output`, no stock, recipes `1 output = 1 middle`
and `1 middle = 1 input`: two needs that bottom out at the same base item. -/
def twoNeedsProg : Program :=
  ⟨[⟨1, "middle"⟩, ⟨1, "output"⟩], [],
   [⟨⟨1, "output"⟩, [⟨1, "middle"⟩]⟩, ⟨⟨1, "middle"⟩, [⟨1, "input"⟩]⟩]⟩

/-- Program text `need: n x`, no stock, recipe `1 x = 1 y` (`y` has no recipe). -/
def scaleProg (n : Nat) : Program := ⟨[⟨n, "x"⟩], [], [⟨⟨1, "x"⟩, [⟨1, "y"⟩]⟩]⟩

/-- The single recipe of `scaleProg`. -/
def scaleRecipe : Recipe := ⟨⟨1, "x"⟩, [⟨1, "y"⟩]⟩

/-- The context after `k ≥ 1` iterations of the craft loop of `scaleProg`:
`k` units of `x` crafted, `k` units of `y` registered as missing. -/
def scaleCtx (k : Nat) : Context :=
  ⟨[("x", k)], [], [("y", k)], [("x", scaleRecipe)], 0⟩

/-- The freshly built context of `scaleProg` (also the state after zero loop
iterations). -/
def scaleCtx0 : Context := ⟨[], [], [], [("x", scaleRecipe)], 0⟩

/-- Program text `need: 1 output`, no stock, recipes `1 output = 1 middle` and
`1 middle = 1 input`. -/
def chainProg : Program :=
  ⟨[⟨1, "output"⟩], [],
   [⟨⟨1, "output"⟩, [⟨1, "middle"⟩]⟩, ⟨⟨1, "middle"⟩, [⟨1, "input"⟩]⟩]⟩

/-- The last recipe a program declares for output item `x`, if any.  Per the
specification this is the declaration the recipe index must retain on
conflicts. -/
def lastRecipeFor (p : Program) (x : Item) : Option Recipe :=
  p.recipe_section.reverse.find? (fun r => r.output.item == x)

/-- What claim C10 asserts of the context a successful evaluation reports:
no zero-count entry reaches the missing list, the missing list is sorted by
raw code-point order of the item names, no zero-count entry stays in the
available map, and the missing list only depends on the extensional content
of the needed map, not on its storage order. -/
def ResultViewProps (ctx : Context) : Prop :=
  (∀ s ∈ getNeededItems ctx, s.count ≠ 0) ∧
  List.Sorted stackLe (getNeededItems ctx) ∧
  (∀ kv ∈ ctx.items_available, kv.2 ≠ 0) ∧
  (∀ m : CountMap, m.Perm ctx.items_needed →
    List.insertionSort stackLe (m.map (fun kv => ⟨kv.2, kv.1⟩)) = getNeededItems ctx)

/-- Program text `need: 1 out` / `have: 1 in` / `recipes: 1 out = 1 in`. -/
def craftOneProg : Program := ⟨[⟨1, "out"⟩], [⟨1, "in"⟩], [⟨⟨1, "out"⟩, [⟨1, "in"⟩]⟩]⟩

/-- The context `evaluate` reports for `craftOneProg`. -/
def craftOneCtx : Context :=
  ⟨[], [("out", 1)], [], [("out", ⟨⟨1, "out"⟩, [⟨1, "in"⟩]⟩)], 0⟩

/-- A small well-formed program text. -/
def sampleText : List Char := "need:\n- 1 out\nhave:\n- 2 in\nrecipes:\n- 1 out = 2 in".data

/-- The `Program` that `sampleText` parses to. -/
def sampleProg : Program := ⟨[⟨1, "out"⟩], [⟨2, "in"⟩], [⟨⟨1, "out"⟩, [⟨2, "in"⟩]⟩]⟩

/-! ## One-step unfolding lemmas for the engine -/

theorem run_zero (c : Call) (ctx : Context) : run 0 c ctx = none := rfl

theorem run_evalRecipe_succ (fuel : Nat) (r : Recipe) (ctx : Context) :
    run (fuel + 1) (.evalRecipe r) ctx =
      if ctx.depth > MAX_DEPTH then some (.error .maxDepthExceeded)
      else
        match run fuel (.evalInputs r.inputs) { ctx with depth := ctx.depth + 1 } with
        | some (.ok ctx') => some (.ok { addItems ctx' r.output with depth := ctx'.depth - 1 })
        | other => other := rfl

theorem run_evalInputs_nil (fuel : Nat) (ctx : Context) :
    run (fuel + 1) (.evalInputs []) ctx = some (.ok ctx) := rfl

theorem run_evalInputs_cons (fuel : Nat) (i : ItemStack) (rest : List ItemStack)
    (ctx : Context) :
    run (fuel + 1) (.evalInputs (i :: rest)) ctx =
      match run fuel (.haveOrCraft i false) ctx with
      | some (.ok ctx') => run fuel (.evalInputs rest) ctx'
      | other => other := rfl

theorem run_craftLoop_succ (fuel : Nat) (target : Item) (cn : Nat) (r : Recipe)
    (ctx : Context) :
    run (fuel + 1) (.craftLoop target cn r) ctx =
      if cn ≤ getCountD ctx.items_available target then some (.ok ctx)
      else
        match run fuel (.evalRecipe r) ctx with
        | some (.ok ctx') => run fuel (.craftLoop target cn r) ctx'
        | other => other := rfl

theorem run_evalNeeds_nil (fuel : Nat) (ctx : Context) :
    run (fuel + 1) (.evalNeeds []) ctx = some (.ok ctx) := rfl

theorem run_evalNeeds_cons (fuel : Nat) (n : ItemStack) (rest : List ItemStack)
    (ctx : Context) :
    run (fuel + 1) (.evalNeeds (n :: rest)) ctx =
      match run fuel (.haveOrCraft n true) ctx with
      | some (.ok ctx') => run fuel (.evalNeeds rest) ctx'
      | other => other := rfl

/-! ## Lemmas about the association-list maps -/

theorem getCount_setCount_self (m : CountMap) (k : Item) (v : Nat) :
    getCount (setCount m k v) k = some v := by
  induction m with
  | nil => simp [setCount, getCount]
  | cons kv rest ih =>
    by_cases h : kv.1 == k
    · simp [setCount, getCount, h]
    · simpa [setCount, getCount, h] using ih

theorem getCount_setCount_ne (m : CountMap) (k k' : Item) (v : Nat) (h : k' ≠ k) :
    getCount (setCount m k v) k' = getCount m k' := by
  induction m with
  | nil => simp [setCount, getCount, Ne.symm h]
  | cons kv rest ih =>
    by_cases hk : kv.1 = k
    · simp [setCount, getCount, hk, Ne.symm h]
    · by_cases hk' : kv.1 = k'
      · simp [setCount, getCount, hk, hk', h]
      · simpa [setCount, getCount, hk, hk'] using ih

theorem getCountD_setCount_self (m : CountMap) (k : Item) (v : Nat) :
    getCountD (setCount m k v) k = v := by
  simp [getCountD, getCount_setCount_self]

theorem getCountD_setCount_ne (m : CountMap) (k k' : Item) (v : Nat) (h : k' ≠ k) :
    getCountD (setCount m k v) k' = getCountD m k' := by
  simp [getCountD, getCount_setCount_ne m k k' v h]

theorem getCountD_addCount_self (m : CountMap) (k : Item) (v : Nat) :
    getCountD (addCount m k v) k = getCountD m k + v := by
  simp [addCount, getCountD_setCount_self]

theorem getCountD_addCount_ne (m : CountMap) (k k' : Item) (v : Nat) (h : k' ≠ k) :
    getCountD (addCount m k v) k' = getCountD m k' := by
  simp [addCount, getCountD_setCount_ne m k k' _ h]

theorem mem_keys_setCount (m : CountMap) (k : Item) (v : Nat) :
    ∀ x ∈ (setCount m k v).map Prod.fst, x = k ∨ x ∈ m.map Prod.fst := by
  induction m with
  | nil => simp [setCount]
  | cons kv rest ih =>
    by_cases h : kv.1 = k
    · intro x hx
      rw [setCount, if_pos (by simpa using h)] at hx
      simp only [List.map_cons, List.mem_cons] at hx
      rcases hx with hx | hx
      · exact Or.inl hx
      · exact Or.inr (List.mem_cons_of_mem _ hx)
    · intro x hx
      rw [setCount, if_neg (by simpa using h)] at hx
      simp only [List.map_cons, List.mem_cons] at hx
      rcases hx with hx | hx
      · exact Or.inr (by simp [hx])
      · rcases ih x hx with hx' | hx'
        · exact Or.inl hx'
        · exact Or.inr (List.mem_cons_of_mem _ hx')

theorem nodup_keys_setCount (m : CountMap) (k : Item) (v : Nat)
    (h : (m.map Prod.fst).Nodup) : ((setCount m k v).map Prod.fst).Nodup := by
  induction m with
  | nil => simp [setCount]
  | cons kv rest ih =>
    simp only [List.map_cons, List.nodup_cons] at h
    by_cases hk : kv.1 = k
    · rw [setCount, if_pos (by simpa using hk)]
      simp only [List.map_cons, List.nodup_cons]
      exact ⟨hk ▸ h.1, h.2⟩
    · rw [setCount, if_neg (by simpa using hk)]
      simp only [List.map_cons, List.nodup_cons]
      refine ⟨fun hmem => ?_, ih h.2⟩
      rcases mem_keys_setCount rest k v _ hmem with h' | h'
      · exact hk h'
      · exact h.1 h'

theorem nodup_keys_addCount (m : CountMap) (k : Item) (v : Nat)
    (h : (m.map Prod.fst).Nodup) : ((addCount m k v).map Prod.fst).Nodup :=
  nodup_keys_setCount m k _ h

/-! ## The top-level transfer double-deducts stock (claims C1 and C2) -/

/-- Claim C1 (code bug): for `need: 1 x / have: 2 x` and no recipes, the claim
says evaluation succeeds with an empty missing list and leftover `x = 1`
(stock minus need).  Evaluation does succeed with no missing items, but the
code deducts the stock twice — once in `try_use_item` and once more in the
top-level transfer `*items_available.entry(..).or_default() -= count` — so the
reported leftover is `[]` (2 - 1 - 1 = 0, pruned), not `[(x, 1)]`. -/
theorem evaluate_no_recipes_double_subtracts_stock :
    evalMissing 10 stockTwoProg = some [] ∧ evalAvailable 10 stockTwoProg = some [] := by
  exact ⟨by decide, by decide⟩

/-- Claim C2 (code bug): for `need: 1 x / have: 1 x` and no recipes,
`try_use_item` consumes the single unit of stock (saturating, leaving 0) and
the top-level transfer then executes `0 -= 1` on a `u64`: release builds wrap
the available count to `2^64 - 1` (debug builds panic).  The claim says any
subtraction that would underflow is clamped to zero, which would leave no
`x` entry at all after cleanup. -/
theorem topLevel_transfer_wraps_on_underflow :
    evalAvailable 10 stockOneProg = some [("x", 18446744073709551615)] := by decide

/-! ## Shortages accumulate across independent needs (claim C5) -/

/-- Claim C5: needing `1 middle` and `1 output` with recipes
`1 output = 1 middle`, `1 middle = 1 input` and no stock reports
`missing == [(input, 2)]`: the `middle` moved to the output map while
satisfying the first need is never reused as crafting input for the second. -/
theorem independent_needs_accumulate_shortage :
    evalMissing 30 twoNeedsProg = some [⟨2, "input"⟩] := by decide

/-! ## Crafted intermediates stay in the available map (claim C7) -/

/-- Claim C7: for `need: 1 output` with recipes `1 output = 1 middle` and
`1 middle = 1 input` and no stock, the crafted `middle` is added to
`items_available` but never deducted once the requirement is met, so after
evaluation the available map is exactly `[(middle, 1)]` even though that
`middle` was conceptually consumed to craft the `output`. -/
theorem crafted_intermediates_remain_available :
    evalAvailable 30 chainProg = some [("middle", 1)] := by decide

/-! ## A zero-count recipe output makes the craft loop run forever (claim C3)

For a recipe `0 t = cIn u` where `u` has no recipe of its own, one pass of
`evaluate_recipe` never touches the available count of `t` except to add `0`,
so the condition of the `while available[t] < count_needed` loop never
changes and the loop never exits.  The recursion depth returns to its old
value after every pass, so the depth guard never fires either. -/

theorem tryUseItem_recipes (ctx : Context) (s : ItemStack) :
    (tryUseItem ctx s).2.recipes = ctx.recipes := by
  cases hg : getCount ctx.items_available s.item <;> simp [tryUseItem, hg]

theorem tryUseItem_depth (ctx : Context) (s : ItemStack) :
    (tryUseItem ctx s).2.depth = ctx.depth := by
  cases hg : getCount ctx.items_available s.item <;> simp [tryUseItem, hg]

theorem tryUseItem_avail_other (ctx : Context) (s : ItemStack) (k : Item) (h : k ≠ s.item) :
    getCountD (tryUseItem ctx s).2.items_available k = getCountD ctx.items_available k := by
  cases hg : getCount ctx.items_available s.item <;>
    simp [tryUseItem, hg, getCountD_setCount_ne _ _ _ _ h]

theorem registerNeedItem_recipes (ctx : Context) (s : ItemStack) :
    (registerNeedItem ctx s).recipes = ctx.recipes := by
  simp [registerNeedItem, tryUseItem_recipes]

theorem registerNeedItem_depth (ctx : Context) (s : ItemStack) :
    (registerNeedItem ctx s).depth = ctx.depth := by
  simp [registerNeedItem, tryUseItem_depth]

theorem registerNeedItem_avail_other (ctx : Context) (s : ItemStack) (k : Item)
    (h : k ≠ s.item) :
    getCountD (registerNeedItem ctx s).items_available k = getCountD ctx.items_available k := by
  simp [registerNeedItem, tryUseItem_avail_other _ _ _ h]

/-- The source's `have_or_craft_item` for a non-top-level stack whose item has no recipe:
it always succeeds (no fuel is consumed below it), either from stock alone or
by registering the shortfall as needed. -/
theorem run_haveOrCraft_noRecipe (fuel : Nat) (s : ItemStack) (ctx : Context)
    (hrec : getRecipe ctx.recipes s.item = none) :
    run (fuel + 1) (.haveOrCraft s false) ctx =
      some (.ok (if (tryUseItem ctx s).1 = 0 then (tryUseItem ctx s).2
        else registerNeedItem (tryUseItem ctx s).2 ⟨(tryUseItem ctx s).1, s.item⟩)) := by
  have hrec' : getRecipe (tryUseItem ctx s).2.recipes s.item = none := by
    rw [tryUseItem_recipes]; exact hrec
  by_cases hc : (tryUseItem ctx s).1 = 0 <;> simp [run, hc, hrec']

/-- The source's `have_or_craft_item` when stock does not suffice and a recipe for the item
exists: enter the crafting loop, then (at top level) transfer to the output. -/
theorem run_haveOrCraft_withRecipe (fuel : Nat) (s : ItemStack) (top : Bool) (ctx : Context)
    (recipe : Recipe) (hc : (tryUseItem ctx s).1 ≠ 0)
    (hrec : getRecipe (tryUseItem ctx s).2.recipes s.item = some recipe) :
    run (fuel + 1) (.haveOrCraft s top) ctx =
      match run fuel (.craftLoop s.item (tryUseItem ctx s).1 recipe) (tryUseItem ctx s).2 with
      | some (.ok ctx') =>
        if top then some (.ok (transferToOutput ctx' s)) else some (.ok ctx')
      | other => other := by
  simp [run, hc, hrec]

theorem zeroOut_haveU (t u : Item) (cIn : Nat) (hne : t ≠ u) (fuel : Nat) (ctx : Context)
    (hrec : getRecipe ctx.recipes u = none)
    (hav : getCountD ctx.items_available t = 0) :
    run fuel (.haveOrCraft ⟨cIn, u⟩ false) ctx = none ∨
    ∃ ctx', run fuel (.haveOrCraft ⟨cIn, u⟩ false) ctx = some (.ok ctx') ∧
      ctx'.recipes = ctx.recipes ∧ ctx'.depth = ctx.depth ∧
      getCountD ctx'.items_available t = 0 := by
  cases fuel with
  | zero => exact Or.inl rfl
  | succ fuel =>
    refine Or.inr ⟨_, run_haveOrCraft_noRecipe fuel ⟨cIn, u⟩ ctx hrec, ?_, ?_, ?_⟩
    · by_cases hc : (tryUseItem ctx ⟨cIn, u⟩).1 = 0 <;>
        simp [hc, tryUseItem_recipes, registerNeedItem_recipes]
    · by_cases hc : (tryUseItem ctx ⟨cIn, u⟩).1 = 0 <;>
        simp [hc, tryUseItem_depth, registerNeedItem_depth]
    · have h1 : getCountD (tryUseItem ctx ⟨cIn, u⟩).2.items_available t = 0 := by
        rw [tryUseItem_avail_other _ _ _ hne]; exact hav
      by_cases hc : (tryUseItem ctx ⟨cIn, u⟩).1 = 0
      · simpa [hc] using h1
      · simp only [hc, if_neg, ite_false]
        rw [registerNeedItem_avail_other _ _ _ hne]
        exact h1

theorem zeroOut_evalRecipe (t u : Item) (cIn : Nat) (hne : t ≠ u) (fuel : Nat) (ctx : Context)
    (hrec : getRecipe ctx.recipes u = none) (hd : ctx.depth ≤ MAX_DEPTH)
    (hav : getCountD ctx.items_available t = 0) :
    run fuel (.evalRecipe ⟨⟨0, t⟩, [⟨cIn, u⟩]⟩) ctx = none ∨
    ∃ ctx', run fuel (.evalRecipe ⟨⟨0, t⟩, [⟨cIn, u⟩]⟩) ctx = some (.ok ctx') ∧
      ctx'.recipes = ctx.recipes ∧ ctx'.depth = ctx.depth ∧
      getCountD ctx'.items_available t = 0 := by
  cases fuel with
  | zero => exact Or.inl rfl
  | succ fuel =>
    have hdepth : ¬ctx.depth > MAX_DEPTH := by omega
    cases fuel with
    | zero =>
      refine Or.inl ?_
      rw [run_evalRecipe_succ, if_neg hdepth, run_zero]
    | succ g =>
      rcases zeroOut_haveU t u cIn hne g { ctx with depth := ctx.depth + 1 }
          hrec hav with h | ⟨ctx2, h2, hr2, hd2, hav2⟩
      · refine Or.inl ?_
        rw [run_evalRecipe_succ, if_neg hdepth, run_evalInputs_cons, h]
      · cases g with
        | zero => rw [run_zero] at h2; cases h2
        | succ g' =>
          refine Or.inr ⟨{ addItems ctx2 ⟨0, t⟩ with depth := ctx2.depth - 1 }, ?_, ?_, ?_, ?_⟩
          · rw [run_evalRecipe_succ, if_neg hdepth, run_evalInputs_cons, h2]
            simp [run_evalInputs_nil]
          · simpa [addItems] using hr2
          · simp [addItems, hd2]
          · simp only [addItems]
            show getCountD (addCount ctx2.items_available t 0) t = 0
            rw [getCountD_addCount_self]
            omega

theorem zeroOut_craftLoop (t u : Item) (cIn cn : Nat) (hne : t ≠ u) (hcn : 1 ≤ cn) :
    ∀ fuel (ctx : Context), getRecipe ctx.recipes u = none → ctx.depth ≤ MAX_DEPTH →
      getCountD ctx.items_available t = 0 →
      run fuel (.craftLoop t cn ⟨⟨0, t⟩, [⟨cIn, u⟩]⟩) ctx = none := by
  intro fuel
  induction fuel with
  | zero => intro ctx _ _ _; rfl
  | succ fuel ih =>
    intro ctx hrec hd hav
    have hcond : ¬cn ≤ getCountD ctx.items_available t := by omega
    rcases zeroOut_evalRecipe t u cIn hne fuel ctx hrec hd hav with h | ⟨ctx', h', hr', hd', hav'⟩
    · rw [run_craftLoop_succ, if_neg hcond, h]
    · rw [run_craftLoop_succ, if_neg hcond, h']
      exact ih ctx' (hr' ▸ hrec) (by omega) hav'

/-- Any program of the shape `need: cNeed t` (with `cNeed ≥ 1`), no stock, and
the single recipe `0 t = cIn u` (`t ≠ u`) makes `evaluate` loop forever. -/
theorem zeroOut_diverges (t u : Item) (cIn cNeed : Nat) (hne : t ≠ u) (h1 : 1 ≤ cNeed) :
    Diverges ⟨[⟨cNeed, t⟩], [], [⟨⟨0, t⟩, [⟨cIn, u⟩]⟩]⟩ := by
  intro fuel
  have hnew : Context.new ⟨[⟨cNeed, t⟩], [], [⟨⟨0, t⟩, [⟨cIn, u⟩]⟩]⟩ =
      ⟨[], [], [], [(t, ⟨⟨0, t⟩, [⟨cIn, u⟩]⟩)], 0⟩ := rfl
  cases fuel with
  | zero => rfl
  | succ fuel =>
    cases fuel with
    | zero => simp [evaluate, needsLoop, run]
    | succ g =>
      have hrecu : getRecipe ([(t, (⟨⟨0, t⟩, [⟨cIn, u⟩]⟩ : Recipe))] : RecipeMap) u = none := by
        simp [getRecipe, hne]
      have hrect : getRecipe ([(t, (⟨⟨0, t⟩, [⟨cIn, u⟩]⟩ : Recipe))] : RecipeMap) t
          = some ⟨⟨0, t⟩, [⟨cIn, u⟩]⟩ := by
        simp [getRecipe]
      have htry : tryUseItem ⟨[], [], [], [(t, ⟨⟨0, t⟩, [⟨cIn, u⟩]⟩)], 0⟩ ⟨cNeed, t⟩ =
          (cNeed, ⟨[], [], [], [(t, ⟨⟨0, t⟩, [⟨cIn, u⟩]⟩)], 0⟩) := rfl
      have hloop := zeroOut_craftLoop t u cIn cNeed hne h1 g
        ⟨[], [], [], [(t, ⟨⟨0, t⟩, [⟨cIn, u⟩]⟩)], 0⟩ hrecu (by simp [MAX_DEPTH]) rfl
      show (match run (g + 1 + 1) (.evalNeeds [⟨cNeed, t⟩])
          (Context.new ⟨[⟨cNeed, t⟩], [], [⟨⟨0, t⟩, [⟨cIn, u⟩]⟩]⟩) with
        | some (.ok ctx) => some (.ok (cleanup ctx))
        | other => other) = none
      rw [hnew, run_evalNeeds_cons,
        run_haveOrCraft_withRecipe g ⟨cNeed, t⟩ true _ ⟨⟨0, t⟩, [⟨cIn, u⟩]⟩
          (by rw [htry]; omega) (by rw [htry]; exact hrect),
        htry, hloop]

/-- Claim C3 (counterexample): the program `need: 1 x` with no stock and the
single recipe `0 x = 1 y` makes `evaluate` loop forever: no fuel suffices, so
evaluation neither returns a result nor `MaxDepthExceeded`, refuting the claim
that every program terminates with the depth guard as a sufficient
safeguard. -/
theorem zero_output_recipe_need_diverges : Diverges zeroOutProgA :=
  zeroOut_diverges "x" "y" 1 1 (by decide) (by decide)

/-- Claim C3 (amended): the recursion-depth guard bounds only the recursion
depth, not the craft loop, and is not a sufficient safeguard against unbounded
work: a program whose needed item has a zero-count recipe output
(`need: 2 z`, recipe `0 z = 3 w`) makes the resolution loop run forever, while
a transitively cyclic recipe chain with positive outputs (`1 p = 1 q`,
`1 q = 1 p`) is caught by the guard and returns `MaxDepthExceeded`. -/
theorem depth_guard_not_sufficient_for_termination :
    Diverges zeroOutProgB ∧
      evaluate 600 transCycProg = some (.error .maxDepthExceeded) :=
  ⟨zeroOut_diverges "z" "w" 3 2 (by decide) (by decide), by decide⟩

/-! ## Shortage scales linearly with the requested count (claim C6)

For `need: n x`, no stock and the single recipe `1 x = 1 y` (`y` having no
recipe), each iteration of the craft loop registers one more `y` as needed
and adds one crafted `x`, so after `k` iterations the state is `scaleCtx k`;
the loop stops at `k = n`. -/

theorem scale_step0 (f : Nat) :
    run (f + 3) (.evalRecipe scaleRecipe) scaleCtx0 = some (.ok (scaleCtx 1)) := rfl

theorem scale_step (f k : Nat) :
    run (f + 3) (.evalRecipe scaleRecipe) (scaleCtx (k + 1)) =
      some (.ok (scaleCtx (k + 2))) := rfl

theorem scale_loop :
    ∀ fuel n k, 1 ≤ n → 1 ≤ k → k ≤ n → n - k + 4 ≤ fuel →
      run fuel (.craftLoop "x" n scaleRecipe) (scaleCtx k) = some (.ok (scaleCtx n)) := by
  intro fuel
  induction fuel with
  | zero => intro n k _ _ _ hf; exact absurd hf (by omega)
  | succ f ih =>
    intro n k hn hk hkn hf
    rcases Nat.lt_or_ge k n with hlt | hge
    · have hcond : ¬n ≤ getCountD (scaleCtx k).items_available "x" := by
        rw [show getCountD (scaleCtx k).items_available "x" = k from rfl]; omega
      rw [run_craftLoop_succ, if_neg hcond]
      obtain ⟨g, rfl⟩ : ∃ g, f = g + 3 := ⟨f - 3, by omega⟩
      obtain ⟨k', rfl⟩ : ∃ k', k = k' + 1 := ⟨k - 1, by omega⟩
      rw [scale_step]
      exact ih n (k' + 2) hn (by omega) (by omega) (by omega)
    · have hkn' : n = k := by omega
      subst hkn'
      have hcond : n ≤ getCountD (scaleCtx n).items_available "x" := by
        rw [show getCountD (scaleCtx n).items_available "x" = n from rfl]
      rw [run_craftLoop_succ, if_pos hcond]

/-- Claim C6 (counterexample): at `needCount = 0` the claim predicts
`missing == [(y, 0)]`, but evaluation reports an empty missing list (the need
is satisfied trivially and nothing is ever registered), so the claimed
equality fails at 0.  (In a debug build this input even panics: the zero
`need` leaves a zero-count entry in `items_output`, tripping the
`debug_assert!` in `cleanup`.) -/
theorem linear_scaling_fails_at_zero :
    evalMissing 10 (scaleProg 0) = some [] ∧
      some ([] : List ItemStack) ≠ some [⟨0, "y"⟩] := by
  exact ⟨by decide, by decide⟩

set_option maxHeartbeats 1000000 in
/-- Claim C6 (amended): for every `needCount ≥ 1`, the program needing
`needCount` of `x` with no stock and the single recipe `1 x = 1 y` evaluates
successfully with `missing == [(y, needCount)]`; the shortage scales linearly
with the requested count.  (At `needCount = 0` the missing list is `[]`
instead.) -/
theorem linear_scaling_of_missing (n : Nat) (h : 1 ≤ n) :
    evalMissing (n + 10) (scaleProg n) = some [⟨n, "y"⟩] := by
  have htry : tryUseItem scaleCtx0 ⟨n, "x"⟩ = (n, scaleCtx0) := rfl
  have hloop1 : run (n + 8) (.craftLoop "x" n scaleRecipe) scaleCtx0 =
      some (.ok (scaleCtx n)) := by
    have hcond : ¬n ≤ getCountD scaleCtx0.items_available "x" := by
      rw [show getCountD scaleCtx0.items_available "x" = 0 from rfl]; omega
    rw [run_craftLoop_succ, if_neg hcond]
    rw [show n + 7 = n + 4 + 3 from by omega, scale_step0]
    exact scale_loop (n + 4 + 3) n 1 h (by omega) h (by omega)
  have hhave : run (n + 9) (.haveOrCraft ⟨n, "x"⟩ true) scaleCtx0 =
      some (.ok (transferToOutput (scaleCtx n) ⟨n, "x"⟩)) := by
    rw [run_haveOrCraft_withRecipe (n + 8) ⟨n, "x"⟩ true scaleCtx0 scaleRecipe
      (by rw [htry]; omega) (by rw [htry]; rfl)]
    rw [htry, hloop1]
    exact rfl
  have htrans : transferToOutput (scaleCtx n) ⟨n, "x"⟩ =
      ⟨[("x", 0)], [("x", n)], [("y", n)], [("x", scaleRecipe)], 0⟩ := by
    simp [transferToOutput, scaleCtx, u64WrapSub, addCount, setCount, getCountD, getCount,
      List.find?]
  have hneeds : run (n + 10) (.evalNeeds [⟨n, "x"⟩]) scaleCtx0 =
      some (.ok (⟨[("x", 0)], [("x", n)], [("y", n)], [("x", scaleRecipe)], 0⟩ : Context)) := by
    rw [run_evalNeeds_cons, hhave, htrans]
    simp [run_evalNeeds_nil]
  have hn0 : (n != 0) = true := by simpa using (by omega : n ≠ 0)
  have hclean : cleanup ⟨[("x", 0)], [("x", n)], [("y", n)], [("x", scaleRecipe)], 0⟩ =
      ⟨[], [("x", n)], [("y", n)], [("x", scaleRecipe)], 0⟩ := by
    simp [cleanup, List.filter, hn0]
  have heval : evaluate (n + 10) (scaleProg n) =
      some (.ok (⟨[], [("x", n)], [("y", n)], [("x", scaleRecipe)], 0⟩ : Context)) := by
    show (match run (n + 10) (.evalNeeds [⟨n, "x"⟩]) scaleCtx0 with
      | some (.ok ctx) => some (.ok (cleanup ctx))
      | other => other : EvalResult) = _
    simp only [hneeds, hclean]
  show (match evaluate (n + 10) (scaleProg n) with
    | some (.ok ctx) => some (getNeededItems ctx)
    | _ => none) = some [⟨n, "y"⟩]
  simp only [heval]
  rfl

/-- Claim C6 (witness): the spec's own example `needCount = 10` gives
`missing == [(y, 10)]`. -/
theorem linear_scaling_of_missing_witness :
    1 ≤ 10 ∧ evalMissing (10 + 10) (scaleProg 10) = some [⟨10, "y"⟩] :=
  ⟨by decide, linear_scaling_of_missing 10 (by decide)⟩

/-! ## The parser consumes the whole input or fails (claim C8)

Every parser returns a suffix of its input, so the remainder reported by
`parse_from_string` really is the unconsumed tail of the input text. -/

theorem dropSpace0_suffix (i : List Char) : dropSpace0 i <:+ i :=
  List.dropWhile_suffix _

theorem dropMultispace0_suffix (i : List Char) : dropMultispace0 i <:+ i :=
  List.dropWhile_suffix _

theorem pChar_suffix (c : Char) (i rest : List Char) (h : pChar c i = some rest) :
    rest <:+ i := by
  cases i with
  | nil => cases h
  | cons x xs =>
    simp only [pChar] at h
    split at h
    · cases h; exact List.suffix_cons _ _
    · cases h

theorem pTag_suffix (t i rest : List Char) (h : pTag t i = some rest) : rest <:+ i := by
  simp only [pTag] at h
  split at h
  · cases h; exact List.drop_suffix _ _
  · cases h

theorem pLineEnding_suffix (i rest : List Char) (h : pLineEnding i = some rest) :
    rest <:+ i := by
  unfold pLineEnding at h
  split at h
  · cases h; exact List.suffix_cons _ _
  · cases h; exact (List.suffix_cons _ _).trans (List.suffix_cons _ _)
  · cases h

theorem pFuzzyLineEnding_suffix (i rest : List Char) (h : pFuzzyLineEnding i = some rest) :
    rest <:+ i :=
  (pLineEnding_suffix _ _ h).trans (dropSpace0_suffix i)

theorem pEof_suffix (i rest : List Char) (h : pEof i = some rest) : rest <:+ i := by
  cases i with
  | nil => cases h; exact List.suffix_refl _
  | cons x xs => cases h

theorem pU64_suffix (i rest : List Char) (v : Nat) (h : pU64 i = some (rest, v)) :
    rest <:+ i := by
  simp only [pU64] at h
  split at h
  · cases h
  · split at h
    · cases h; exact List.drop_suffix _ _
    · cases h

theorem pSpaces1_suffix (i rest : List Char) (h : pSpaces1 i = some rest) : rest <:+ i := by
  simp only [pSpaces1] at h
  split at h
  · cases h
  · cases h; exact List.drop_suffix _ _

theorem pIsNot_suffix (i rest tk : List Char) (h : pIsNot i = some (rest, tk)) :
    rest <:+ i := by
  simp only [pIsNot] at h
  split at h
  · cases h
  · cases h; exact List.drop_suffix _ _

theorem pItem_suffix (i rest : List Char) (it : Item) (h : pItem i = some (rest, it)) :
    rest <:+ i := by
  simp only [pItem] at h
  split at h
  · rename_i heq
    cases h
    exact pIsNot_suffix _ _ _ heq
  · cases h

theorem pItemWithCount_suffix (i rest : List Char) (s : ItemStack)
    (h : pItemWithCount i = some (rest, s)) : rest <:+ i := by
  simp only [pItemWithCount] at h
  split at h
  case _ i1 count h1 =>
    split at h
    case _ i2 h2 =>
      split at h
      case _ i3 it h3 =>
        cases h
        exact ((pItem_suffix _ _ _ h3).trans (pSpaces1_suffix _ _ h2)).trans
          (pU64_suffix _ _ _ h1)
      case _ => cases h
    case _ => cases h
  case _ => cases h

theorem pPadded_suffix (c : Char) (i rest : List Char) (h : pPadded c i = some rest) :
    rest <:+ i := by
  simp only [pPadded] at h
  split at h
  case _ i1 h1 =>
    cases h
    exact (dropSpace0_suffix i1).trans ((pChar_suffix _ _ _ h1).trans (dropSpace0_suffix i))
  case _ => cases h

theorem pSepPlusLoop_suffix (fuel : Nat) :
    ∀ (acc out : List ItemStack) (i rest : List Char),
      pSepPlusLoop fuel acc i = some (rest, out) → rest <:+ i := by
  induction fuel with
  | zero => intro acc out i rest h; cases h
  | succ fuel ih =>
    intro acc out i rest h
    simp only [pSepPlusLoop] at h
    split at h
    · cases h; exact List.suffix_refl _
    case _ i1 h1 =>
      split at h
      · cases h
      · split at h
        · cases h; exact List.suffix_refl _
        case _ i2 o h2 =>
          exact ((ih _ _ _ _ h).trans (pItemWithCount_suffix _ _ _ h2)).trans
            (pPadded_suffix _ _ _ h1)

theorem pSepPlus1_suffix (i rest : List Char) (out : List ItemStack)
    (h : pSepPlus1 i = some (rest, out)) : rest <:+ i := by
  simp only [pSepPlus1] at h
  split at h
  case _ i1 first h1 =>
    exact (pSepPlusLoop_suffix _ _ _ _ _ h).trans (pItemWithCount_suffix _ _ _ h1)
  case _ => cases h

theorem pRecipe_suffix (i rest : List Char) (r : Recipe) (h : pRecipe i = some (rest, r)) :
    rest <:+ i := by
  simp only [pRecipe] at h
  split at h
  case _ i1 output h1 =>
    split at h
    case _ i2 h2 =>
      split at h
      case _ i3 inputs h3 =>
        cases h
        exact ((pSepPlus1_suffix _ _ _ h3).trans (pPadded_suffix _ _ _ h2)).trans
          (pItemWithCount_suffix _ _ _ h1)
      case _ => cases h
    case _ => cases h
  case _ => cases h

theorem pListItem_suffix {α : Type} (f : List Char → Option (List Char × α))
    (hf : ∀ i rest o, f i = some (rest, o) → rest <:+ i)
    (i rest : List Char) (o : α) (h : pListItem f i = some (rest, o)) : rest <:+ i := by
  simp only [pListItem] at h
  split at h
  case _ i1 h1 =>
    split at h
    case _ i2 o2 h2 =>
      have hsuf2 : i2 <:+ i :=
        ((hf _ _ _ h2).trans (dropSpace0_suffix i1)).trans (pChar_suffix _ _ _ h1)
      split at h
      case _ i3 h3 =>
        cases h
        exact (pFuzzyLineEnding_suffix _ _ h3).trans hsuf2
      case _ =>
        split at h
        case _ i3 h3 =>
          cases h
          exact (pEof_suffix _ _ h3).trans hsuf2
        case _ => cases h
    case _ => cases h
  case _ => cases h

theorem pMany0Loop_suffix {α : Type} (f : List Char → Option (List Char × α))
    (hf : ∀ i rest o, f i = some (rest, o) → rest <:+ i) (fuel : Nat) :
    ∀ (acc : List α) (i rest : List Char) (out : List α),
      pMany0Loop f fuel acc i = some (rest, out) → rest <:+ i := by
  induction fuel with
  | zero => intro acc i rest out h; cases h
  | succ fuel ih =>
    intro acc i rest out h
    simp only [pMany0Loop] at h
    split at h
    · cases h; exact List.suffix_refl _
    case _ i1 o h1 =>
      split at h
      · cases h
      · exact (ih _ _ _ _ h).trans (hf _ _ _ h1)

theorem pMany0_suffix {α : Type} (f : List Char → Option (List Char × α))
    (hf : ∀ i rest o, f i = some (rest, o) → rest <:+ i)
    (i rest : List Char) (out : List α) (h : pMany0 f i = some (rest, out)) : rest <:+ i :=
  pMany0Loop_suffix f hf _ _ _ _ _ h

theorem pSection_suffix {α : Type} (head : List Char)
    (f : List Char → Option (List Char × α))
    (hf : ∀ i rest o, f i = some (rest, o) → rest <:+ i)
    (i rest : List Char) (out : List α) (h : pSection head f i = some (rest, out)) :
    rest <:+ i := by
  simp only [pSection] at h
  split at h
  case _ i1 h1 =>
    split at h
    case _ i2 h2 =>
      split at h
      case _ i3 h3 =>
        exact (((pMany0_suffix _ (pListItem_suffix f hf) _ _ _ h).trans
          (pFuzzyLineEnding_suffix _ _ h3)).trans (pChar_suffix _ _ _ h2)).trans
          (pTag_suffix _ _ _ h1)
      case _ => cases h
    case _ => cases h
  case _ => cases h

theorem pNeedBranch_suffix (i rest : List Char) (out : List ItemStack)
    (h : pNeedBranch i = some (rest, out)) : rest <:+ i :=
  (pSection_suffix _ _ (fun i r o => pItemWithCount_suffix i r o) _ _ _ h).trans
    (dropMultispace0_suffix i)

theorem pHaveBranch_suffix (i rest : List Char) (out : List ItemStack)
    (h : pHaveBranch i = some (rest, out)) : rest <:+ i :=
  (pSection_suffix _ _ (fun i r o => pItemWithCount_suffix i r o) _ _ _ h).trans
    (dropMultispace0_suffix i)

theorem pRecipesBranch_suffix (i rest : List Char) (out : List Recipe)
    (h : pRecipesBranch i = some (rest, out)) : rest <:+ i :=
  (pSection_suffix _ _ (fun i r o => pRecipe_suffix i r o) _ _ _ h).trans
    (dropMultispace0_suffix i)

theorem progPermLoop_suffix (fuel : Nat) :
    ∀ ra rb rc (i rest : List Char) out,
      progPermLoop fuel ra rb rc i = some (rest, out) → rest <:+ i := by
  induction fuel with
  | zero => intro ra rb rc i rest out h; cases h
  | succ fuel ih =>
    intro ra rb rc i rest out h
    simp only [progPermLoop] at h
    split at h
    case _ i1 a _ h1 =>
      exact (ih _ _ _ _ _ _ h).trans (pNeedBranch_suffix _ _ _ h1)
    case _ =>
      split at h
      case _ i1 b _ h1 =>
        exact (ih _ _ _ _ _ _ h).trans (pHaveBranch_suffix _ _ _ h1)
      case _ =>
        split at h
        case _ i1 c _ h1 =>
          exact (ih _ _ _ _ _ _ h).trans (pRecipesBranch_suffix _ _ _ h1)
        case _ =>
          split at h
          · cases h; exact List.suffix_refl _
          · cases h

theorem program_suffix (input rest : List Char) (p : Program)
    (h : program input = some (rest, p)) : rest <:+ input := by
  simp only [program] at h
  split at h
  case _ i1 n hv r h1 =>
    cases h
    exact (dropMultispace0_suffix i1).trans (progPermLoop_suffix 4 _ _ _ _ _ _ h1)
  case _ => cases h

set_option maxHeartbeats 1000000 in
/-- Claim C8: `parse_from_string` returns a `Program` exactly when the
`program` rule consumes the entire input (trailing whitespace included, since
the rule ends in `multispace0`); when the rule succeeds with a non-empty
remainder the error reports that remainder — which really is the unconsumed
tail of the input — and when the rule fails a plain parse error is reported.
No `Program` is ever returned on failure. -/
theorem parse_consumes_whole_input (input : List Char) :
    (∀ p : Program, parse_from_string input = .ok p ↔ program input = some ([], p)) ∧
    (∀ rem p, program input = some (rem, p) → rem ≠ [] →
      parse_from_string input = .error (.remaining rem)) ∧
    (program input = none → parse_from_string input = .error .failed) ∧
    (∀ rem p, program input = some (rem, p) → rem <:+ input) := by
  refine ⟨?_, ?_, ?_, ?_⟩
  · intro p
    constructor
    · intro h
      unfold parse_from_string at h
      split at h
      · rename_i heq; cases h; exact heq
      · cases h
      · cases h
    · intro h
      unfold parse_from_string
      split
      · rename_i q heq
        rw [h] at heq
        cases heq
        rfl
      · rename_i rem q hpre heq
        rw [h] at heq
        cases heq
        exact absurd rfl hpre
      · rename_i heq
        rw [h] at heq
        cases heq
  · intro rem p h hne
    unfold parse_from_string
    split
    · rename_i q heq
      rw [h] at heq
      cases heq
      exact absurd rfl hne
    · rename_i rem' q hpre heq
      rw [h] at heq
      cases heq
      rfl
    · rename_i heq
      rw [h] at heq
      cases heq
  · intro h
    unfold parse_from_string
    split
    · rename_i q heq; rw [h] at heq; cases heq
    · rename_i rem' q hpre heq; rw [h] at heq; cases heq
    · rfl
  · intro rem p h
    exact program_suffix input rem p h

/-- Claim C8 (witness): a concrete well-formed program text parses to the
expected `Program`, and its `program`-rule remainder is empty. -/
theorem parse_consumes_whole_input_witness :
    parse_from_string sampleText = .ok sampleProg ∧
      program sampleText = some ([], sampleProg) := by
  have h := (parse_consumes_whole_input sampleText).1 sampleProg
  exact ⟨h.mpr (by decide), by decide⟩

/-! ## The recipe index keeps the later declaration (claim C9) -/

theorem getRecipe_setRecipe (m : RecipeMap) (k x : Item) (v : Recipe) :
    getRecipe (setRecipe m k v) x = if k = x then some v else getRecipe m x := by
  induction m with
  | nil => by_cases h : k = x <;> simp [setRecipe, getRecipe, h]
  | cons kv rest ih =>
    by_cases hk : kv.1 = k
    · by_cases h : k = x <;> simp [setRecipe, getRecipe, hk, h]
    · by_cases hx : kv.1 = x
      · have hkx : ¬k = x := fun h => hk (h ▸ hx)
        simp [setRecipe, getRecipe, hk, hx, hkx, Ne.symm hkx]
      · simpa [setRecipe, getRecipe, hk, hx] using ih

theorem getRecipe_foldl_setRecipe (rs : List Recipe) (m0 : RecipeMap) (x : Item) :
    getRecipe (rs.foldl (fun m r => setRecipe m r.output.item r) m0) x =
      (rs.reverse.find? (fun r => r.output.item == x)).or (getRecipe m0 x) := by
  induction rs generalizing m0 with
  | nil => simp
  | cons r rs ih =>
    simp only [List.foldl_cons, List.reverse_cons, List.find?_append, ih,
      getRecipe_setRecipe, Option.or_assoc]
    by_cases h : r.output.item = x
    · have hb : (r.output.item == x) = true := by simpa using h
      simp [h, hb, List.find?]
    · have hb : (r.output.item == x) = false := by simpa using h
      simp [h, hb, List.find?]

/-! ## The depth guard cuts off after 129 nested crafts, not 128 (claim C4)

The linear chain `lineProg L` (`need: 1 (nm 0)`, recipes
`1 (nm i) = 1 (nm (i+1))` for `i < L`) descends through `L` nested
`have_or_craft_item` calls before bottoming out at `nm L`, which has no
recipe.  The descent is characterised symbolically over the fuel:
`chain_descend` gives the successful unwind when `L ≤ 129`,
`chain_descend_err` the guard firing when the chain still has a recipe to
expand at depth `129`. -/

theorem nm_inj {i j : Nat} (h : nm i = nm j) : i = j := by
  have hd : 'x' :: List.replicate i 'y' = 'x' :: List.replicate j 'y' :=
    congrArg String.data h
  have hl := congrArg List.length hd
  simpa using hl

theorem nm_beq_false {i j : Nat} (h : i ≠ j) : (nm i == nm j) = false := by
  have hne : nm i ≠ nm j := fun hh => h (nm_inj hh)
  simp [hne]

theorem getCount_eq_none_of_keys_ne (m : CountMap) (k : Item)
    (h : ∀ kv ∈ m, kv.1 ≠ k) : getCount m k = none := by
  induction m with
  | nil => rfl
  | cons kv rest ih =>
    have hk : (kv.1 == k) = false := by
      have := h kv (List.mem_cons_self _ _)
      simp [this]
    simpa [getCount, List.find?, hk] using
      ih (fun kv' hkv' => h kv' (List.mem_cons_of_mem _ hkv'))

theorem getCount_append_of_none (m m' : CountMap) (k : Item)
    (h : getCount m k = none) : getCount (m ++ m') k = getCount m' k := by
  induction m with
  | nil => rfl
  | cons kv rest ih =>
    by_cases hb : (kv.1 == k) = true
    · simp [getCount, List.find?, hb] at h
    · have hb' : (kv.1 == k) = false := by simpa using hb
      have h' : getCount rest k = none := by simpa [getCount, List.find?, hb'] using h
      simpa [getCount, List.find?, hb'] using ih h'

theorem setCount_of_none (m : CountMap) (k : Item) (v : Nat)
    (h : getCount m k = none) : setCount m k v = m ++ [(k, v)] := by
  induction m with
  | nil => rfl
  | cons kv rest ih =>
    by_cases hb : (kv.1 == k) = true
    · simp [getCount, List.find?, hb] at h
    · have hb' : (kv.1 == k) = false := by simpa using hb
      have h' : getCount rest k = none := by simpa [getCount, List.find?, hb'] using h
      simp [setCount, hb', ih h']

theorem addCount_of_none (m : CountMap) (k : Item) (v : Nat)
    (h : getCount m k = none) : addCount m k v = m ++ [(k, v)] := by
  have hd : getCountD m k = 0 := by
    show (getCount m k).getD 0 = 0
    rw [h]
    rfl
  show setCount m k (getCountD m k + v) = m ++ [(k, v)]
  rw [hd, Nat.zero_add]
  exact setCount_of_none m k v h

theorem getCountD_append_singleton (m : CountMap) (k : Item) (v : Nat)
    (h : getCount m k = none) : getCountD (m ++ [(k, v)]) k = v := by
  show (getCount (m ++ [(k, v)]) k).getD 0 = v
  rw [getCount_append_of_none m _ k h]
  simp [getCount, List.find?]

theorem chainAvail_stop (len i : Nat) (h : ¬ i < len) : chainAvail len i = [] := by
  rw [chainAvail]
  exact dif_neg h

theorem chainAvail_unfold (len i : Nat) (h : i < len) :
    chainAvail len i = chainAvail len (i + 1) ++ [(nm i, 1)] := by
  rw [chainAvail]
  exact dif_pos h

theorem chainAvail_mem (d : Nat) :
    ∀ len i, len ≤ i + d → ∀ kv ∈ chainAvail len i,
      ∃ j, i ≤ j ∧ j < len ∧ kv = (nm j, 1) := by
  induction d with
  | zero =>
    intro len i hlen kv hkv
    rw [chainAvail_stop len i (by omega)] at hkv
    exact absurd hkv (List.not_mem_nil _)
  | succ d ih =>
    intro len i hlen kv hkv
    by_cases h : i < len
    · rw [chainAvail_unfold len i h] at hkv
      rcases List.mem_append.mp hkv with hkv' | hkv'
      · rcases ih len (i + 1) (by omega) kv hkv' with ⟨j, hj1, hj2, hj3⟩
        exact ⟨j, by omega, hj2, hj3⟩
      · refine ⟨i, Nat.le_refl i, h, ?_⟩
        simpa using hkv'
    · rw [chainAvail_stop len i h] at hkv
      exact absurd hkv (List.not_mem_nil _)

theorem getCount_chainAvail_none (len i m : Nat) (hm : m < i) :
    getCount (chainAvail len i) (nm m) = none := by
  apply getCount_eq_none_of_keys_ne
  intro kv hkv
  rcases chainAvail_mem len len i (by omega) kv hkv with ⟨j, hj1, hj2, hj3⟩
  rw [hj3]
  intro hc
  exact absurd (nm_inj hc) (by omega)

theorem getCountD_chainAvail_self (len i : Nat) (h : i < len) :
    getCountD (chainAvail len i) (nm i) = 1 := by
  rw [chainAvail_unfold len i h]
  exact getCountD_append_singleton _ _ _
    (getCount_chainAvail_none len (i + 1) i (by omega))

theorem find?_nat_beq (i : Nat) :
    ∀ l : List Nat, l.find? (fun j => j == i) = if i ∈ l then some i else none := by
  intro l
  induction l with
  | nil => simp
  | cons a rest ih =>
    by_cases ha : a = i
    · subst ha; simp [List.find?]
    · have hb : (a == i) = false := by simp [ha]
      have ha' : ¬ i = a := fun h => ha h.symm
      simp [List.find?, hb, ih, ha']

theorem find?_map_chainRecipe (i : Nat) :
    ∀ js : List Nat,
      (js.map chainRecipe).find? (fun r => r.output.item == nm i) =
        (js.find? (fun j => j == i)).map chainRecipe := by
  intro js
  induction js with
  | nil => rfl
  | cons a rest ih =>
    by_cases ha : a = i
    · subst ha
      simp [List.find?, chainRecipe]
    · have hb1 : ((chainRecipe a).output.item == nm i) = false := nm_beq_false ha
      have hb2 : (a == i) = false := by simp [ha]
      simp [List.find?, hb1, hb2, ih]

theorem getRecipe_lineProg (L i : Nat) :
    getRecipe (Context.new (lineProg L)).recipes (nm i) =
      if i < L then some (chainRecipe i) else none := by
  show getRecipe (((List.range L).map chainRecipe).foldl
      (fun m r => setRecipe m r.output.item r) []) (nm i) = _
  rw [getRecipe_foldl_setRecipe, ← List.map_reverse, find?_map_chainRecipe,
    find?_nat_beq]
  by_cases h : i < L
  · rw [if_pos (List.mem_reverse.mpr (List.mem_range.mpr h)), if_pos h]
    rfl
  · rw [if_neg (fun hc => h (List.mem_range.mp (List.mem_reverse.mp hc))), if_neg h]
    rfl

/-- Symbolic unwind of the chain: below the top level and with depth slack
(`L ≤ 129`), resolving `1 (nm i)` at depth `i` with an empty store crafts the
whole suffix of the chain and registers one unit of the bottom item. -/
theorem chain_descend (L : Nat) (hL : L ≤ 129) :
    ∀ d i fuel, i + d = L → 4 * d + 2 ≤ fuel →
      run fuel (.haveOrCraft ⟨1, nm i⟩ false)
          ⟨[], [], [], (Context.new (lineProg L)).recipes, i⟩ =
        some (.ok ⟨chainAvail L i, [], [(nm L, 1)],
          (Context.new (lineProg L)).recipes, i⟩) := by
  intro d
  induction d with
  | zero =>
    intro i fuel hiL hfuel
    obtain ⟨g, rfl⟩ : ∃ g, fuel = g + 1 := ⟨fuel - 1, by omega⟩
    have hiL' : i = L := by omega
    subst hiL'
    have hrec : getRecipe (Context.new (lineProg i)).recipes (nm i) = none := by
      rw [getRecipe_lineProg]
      exact if_neg (Nat.lt_irrefl i)
    rw [run_haveOrCraft_noRecipe g ⟨1, nm i⟩
        ⟨[], [], [], (Context.new (lineProg i)).recipes, i⟩ hrec,
      chainAvail_stop i i (Nat.lt_irrefl i)]
    rfl
  | succ d ih =>
    intro i fuel hiL hfuel
    obtain ⟨g, rfl⟩ : ∃ g, fuel = g + 6 := ⟨fuel - 6, by omega⟩
    have hiL' : i < L := by omega
    have hdepth : ¬ (⟨[], [], [], (Context.new (lineProg L)).recipes, i⟩ :
        Context).depth > MAX_DEPTH := by
      show ¬ i > 128
      omega
    have hrec : getRecipe (Context.new (lineProg L)).recipes (nm i) =
        some (chainRecipe i) := by
      rw [getRecipe_lineProg]
      exact if_pos hiL'
    have havail : addCount (chainAvail L (i + 1)) (nm i) 1 = chainAvail L i := by
      rw [addCount_of_none _ _ _ (getCount_chainAvail_none L (i + 1) i (by omega))]
      exact (chainAvail_unfold L i hiL').symm
    have hinner := ih (i + 1) (g + 2) (by omega) (by omega)
    have hinputs : run (g + 3) (.evalInputs [⟨1, nm (i + 1)⟩])
        ⟨[], [], [], (Context.new (lineProg L)).recipes, i + 1⟩ =
        some (.ok ⟨chainAvail L (i + 1), [], [(nm L, 1)],
          (Context.new (lineProg L)).recipes, i + 1⟩) := by
      rw [run_evalInputs_cons, hinner]
      exact run_evalInputs_nil (g + 1) _
    have hrecipe : run (g + 4) (.evalRecipe (chainRecipe i))
        ⟨[], [], [], (Context.new (lineProg L)).recipes, i⟩ =
        some (.ok ⟨chainAvail L i, [], [(nm L, 1)],
          (Context.new (lineProg L)).recipes, i⟩) := by
      rw [run_evalRecipe_succ, if_neg hdepth]
      show (match run (g + 3) (.evalInputs [⟨1, nm (i + 1)⟩])
            (⟨[], [], [], (Context.new (lineProg L)).recipes, i + 1⟩ : Context) with
        | some (.ok ctx') =>
          some (.ok { addItems ctx' ⟨1, nm i⟩ with depth := ctx'.depth - 1 })
        | other => other) =
        some (.ok ⟨chainAvail L i, [], [(nm L, 1)],
          (Context.new (lineProg L)).recipes, i⟩)
      rw [hinputs]
      show (some (Except.ok (⟨addCount (chainAvail L (i + 1)) (nm i) 1, [], [(nm L, 1)],
          (Context.new (lineProg L)).recipes, i⟩ : Context)) : EvalResult) =
        some (Except.ok (⟨chainAvail L i, [], [(nm L, 1)],
          (Context.new (lineProg L)).recipes, i⟩ : Context))
      rw [havail]
    have hav0 : ¬ (1 : Nat) ≤ getCountD (⟨[], [], [],
        (Context.new (lineProg L)).recipes, i⟩ : Context).items_available (nm i) := by
      show ¬ (1 : Nat) ≤ (0 : Nat)
      omega
    have hcnt1 : getCountD (chainAvail L i) (nm i) = 1 :=
      getCountD_chainAvail_self L i hiL'
    have hcnt : (1 : Nat) ≤ getCountD (⟨chainAvail L i, [], [(nm L, 1)],
        (Context.new (lineProg L)).recipes, i⟩ : Context).items_available (nm i) := by
      show (1 : Nat) ≤ getCountD (chainAvail L i) (nm i)
      omega
    have hcraft : run (g + 5) (.craftLoop (nm i) 1 (chainRecipe i))
        ⟨[], [], [], (Context.new (lineProg L)).recipes, i⟩ =
        some (.ok ⟨chainAvail L i, [], [(nm L, 1)],
          (Context.new (lineProg L)).recipes, i⟩) := by
      rw [run_craftLoop_succ, if_neg hav0, hrecipe]
      show run (g + 4) (.craftLoop (nm i) 1 (chainRecipe i))
          (⟨chainAvail L i, [], [(nm L, 1)],
            (Context.new (lineProg L)).recipes, i⟩ : Context) =
        some (.ok ⟨chainAvail L i, [], [(nm L, 1)],
          (Context.new (lineProg L)).recipes, i⟩)
      rw [run_craftLoop_succ, if_pos hcnt]
    rw [run_haveOrCraft_withRecipe (g + 5) ⟨1, nm i⟩ false
        ⟨[], [], [], (Context.new (lineProg L)).recipes, i⟩ (chainRecipe i)
        Nat.one_ne_zero hrec]
    show (match run (g + 5) (.craftLoop (nm i) 1 (chainRecipe i))
          (⟨[], [], [], (Context.new (lineProg L)).recipes, i⟩ : Context) with
      | some (.ok ctx') =>
        if false then some (.ok (transferToOutput ctx' ⟨1, nm i⟩))
        else some (.ok ctx')
      | other => other) =
      some (.ok ⟨chainAvail L i, [], [(nm L, 1)],
        (Context.new (lineProg L)).recipes, i⟩)
    rw [hcraft]
    rfl

/-- With enough fuel, `evaluate` on the chain of length `1 ≤ L ≤ 129`
succeeds: the whole chain is crafted (for `L = 129` all 129 nested craft
operations pass the guard) and exactly one unit of the bottom item `nm L` is
recorded as needed. -/
theorem chain_eval_ok (L fuel : Nat) (h1 : 1 ≤ L) (hL : L ≤ 129)
    (hf : 4 * L + 8 ≤ fuel) :
    evaluate fuel (lineProg L) =
      some (.ok (cleanup (transferToOutput
        ⟨chainAvail L 0, [], [(nm L, 1)],
          (Context.new (lineProg L)).recipes, 0⟩ ⟨1, nm 0⟩))) := by
  obtain ⟨g, rfl⟩ : ∃ g, fuel = g + 7 := ⟨fuel - 7, by omega⟩
  have hdepth0 : ¬ (⟨[], [], [], (Context.new (lineProg L)).recipes, 0⟩ :
      Context).depth > MAX_DEPTH := by
    show ¬ (0 : Nat) > 128
    omega
  have hrec0 : getRecipe (Context.new (lineProg L)).recipes (nm 0) =
      some (chainRecipe 0) := by
    rw [getRecipe_lineProg]
    exact if_pos h1
  have havail0 : addCount (chainAvail L 1) (nm 0) 1 = chainAvail L 0 := by
    rw [addCount_of_none _ _ _ (getCount_chainAvail_none L 1 0 (by omega))]
    exact (chainAvail_unfold L 0 h1).symm
  have hinner := chain_descend L hL (L - 1) 1 (g + 2) (by omega) (by omega)
  have hinputs0 : run (g + 3) (.evalInputs [⟨1, nm 1⟩])
      ⟨[], [], [], (Context.new (lineProg L)).recipes, 1⟩ =
      some (.ok ⟨chainAvail L 1, [], [(nm L, 1)],
        (Context.new (lineProg L)).recipes, 1⟩) := by
    rw [run_evalInputs_cons, hinner]
    exact run_evalInputs_nil (g + 1) _
  have hrecipe0 : run (g + 4) (.evalRecipe (chainRecipe 0))
      ⟨[], [], [], (Context.new (lineProg L)).recipes, 0⟩ =
      some (.ok ⟨chainAvail L 0, [], [(nm L, 1)],
        (Context.new (lineProg L)).recipes, 0⟩) := by
    rw [run_evalRecipe_succ, if_neg hdepth0]
    show (match run (g + 3) (.evalInputs [⟨1, nm 1⟩])
          (⟨[], [], [], (Context.new (lineProg L)).recipes, 1⟩ : Context) with
      | some (.ok ctx') =>
        some (.ok { addItems ctx' ⟨1, nm 0⟩ with depth := ctx'.depth - 1 })
      | other => other) =
      some (.ok ⟨chainAvail L 0, [], [(nm L, 1)],
        (Context.new (lineProg L)).recipes, 0⟩)
    rw [hinputs0]
    show (some (Except.ok (⟨addCount (chainAvail L 1) (nm 0) 1, [], [(nm L, 1)],
        (Context.new (lineProg L)).recipes, 0⟩ : Context)) : EvalResult) =
      some (Except.ok (⟨chainAvail L 0, [], [(nm L, 1)],
        (Context.new (lineProg L)).recipes, 0⟩ : Context))
    rw [havail0]
  have hav00 : ¬ (1 : Nat) ≤ getCountD (⟨[], [], [],
      (Context.new (lineProg L)).recipes, 0⟩ : Context).items_available (nm 0) := by
    show ¬ (1 : Nat) ≤ (0 : Nat)
    omega
  have hcnt01 : getCountD (chainAvail L 0) (nm 0) = 1 :=
    getCountD_chainAvail_self L 0 h1
  have hcnt0 : (1 : Nat) ≤ getCountD (⟨chainAvail L 0, [], [(nm L, 1)],
      (Context.new (lineProg L)).recipes, 0⟩ : Context).items_available (nm 0) := by
    show (1 : Nat) ≤ getCountD (chainAvail L 0) (nm 0)
    omega
  have hcraft0 : run (g + 5) (.craftLoop (nm 0) 1 (chainRecipe 0))
      ⟨[], [], [], (Context.new (lineProg L)).recipes, 0⟩ =
      some (.ok ⟨chainAvail L 0, [], [(nm L, 1)],
        (Context.new (lineProg L)).recipes, 0⟩) := by
    rw [run_craftLoop_succ, if_neg hav00, hrecipe0]
    show run (g + 4) (.craftLoop (nm 0) 1 (chainRecipe 0))
        (⟨chainAvail L 0, [], [(nm L, 1)],
          (Context.new (lineProg L)).recipes, 0⟩ : Context) =
      some (.ok ⟨chainAvail L 0, [], [(nm L, 1)],
        (Context.new (lineProg L)).recipes, 0⟩)
    rw [run_craftLoop_succ, if_pos hcnt0]
  have htop : run (g + 6) (.haveOrCraft ⟨1, nm 0⟩ true)
      ⟨[], [], [], (Context.new (lineProg L)).recipes, 0⟩ =
      some (.ok (transferToOutput
        ⟨chainAvail L 0, [], [(nm L, 1)],
          (Context.new (lineProg L)).recipes, 0⟩ ⟨1, nm 0⟩)) := by
    rw [run_haveOrCraft_withRecipe (g + 5) ⟨1, nm 0⟩ true
        ⟨[], [], [], (Context.new (lineProg L)).recipes, 0⟩ (chainRecipe 0)
        Nat.one_ne_zero hrec0]
    show (match run (g + 5) (.craftLoop (nm 0) 1 (chainRecipe 0))
          (⟨[], [], [], (Context.new (lineProg L)).recipes, 0⟩ : Context) with
      | some (.ok ctx') =>
        if true then some (.ok (transferToOutput ctx' ⟨1, nm 0⟩))
        else some (.ok ctx')
      | other => other) =
      some (.ok (transferToOutput
        ⟨chainAvail L 0, [], [(nm L, 1)],
          (Context.new (lineProg L)).recipes, 0⟩ ⟨1, nm 0⟩))
    rw [hcraft0]
    rfl
  show (match run (g + 7) (.evalNeeds [⟨1, nm 0⟩])
      (⟨[], [], [], (Context.new (lineProg L)).recipes, 0⟩ : Context) with
    | some (.ok ctx) => some (Except.ok (cleanup ctx))
    | other => other) = _
  rw [run_evalNeeds_cons, htop]
  show (match run (g + 6) (.evalNeeds [])
      (transferToOutput ⟨chainAvail L 0, [], [(nm L, 1)],
        (Context.new (lineProg L)).recipes, 0⟩ ⟨1, nm 0⟩) with
    | some (.ok ctx) => some (Except.ok (cleanup ctx))
    | other => other) = _
  rw [run_evalNeeds_nil]

/-- Symbolic descent of an over-long chain (`L ≥ 130`): resolving `1 (nm i)`
at depth `i` (with `i + d = 129`) reaches depth `129` with a recipe still
present, so `evaluate_recipe` trips the guard and `MaxDepthExceeded`
propagates all the way out. -/
theorem chain_descend_err (L : Nat) (hL : 130 ≤ L) :
    ∀ d i fuel, i + d = 129 → 4 * d + 4 ≤ fuel →
      run fuel (.haveOrCraft ⟨1, nm i⟩ false)
          ⟨[], [], [], (Context.new (lineProg L)).recipes, i⟩ =
        some (.error .maxDepthExceeded) := by
  intro d
  induction d with
  | zero =>
    intro i fuel hi hf
    obtain ⟨g, rfl⟩ : ∃ g, fuel = g + 4 := ⟨fuel - 4, by omega⟩
    have hi' : i = 129 := by omega
    subst hi'
    have hdepth : (⟨[], [], [], (Context.new (lineProg L)).recipes, 129⟩ :
        Context).depth > MAX_DEPTH := by
      show (129 : Nat) > 128
      omega
    have hrec : getRecipe (Context.new (lineProg L)).recipes (nm 129) =
        some (chainRecipe 129) := by
      rw [getRecipe_lineProg]
      exact if_pos (by omega)
    have hav0 : ¬ (1 : Nat) ≤ getCountD (⟨[], [], [],
        (Context.new (lineProg L)).recipes, 129⟩ :
          Context).items_available (nm 129) := by
      show ¬ (1 : Nat) ≤ (0 : Nat)
      omega
    have hrecipeErr : run (g + 2) (.evalRecipe (chainRecipe 129))
        ⟨[], [], [], (Context.new (lineProg L)).recipes, 129⟩ =
        some (.error .maxDepthExceeded) := by
      rw [run_evalRecipe_succ, if_pos hdepth]
    have hcraftErr : run (g + 3) (.craftLoop (nm 129) 1 (chainRecipe 129))
        ⟨[], [], [], (Context.new (lineProg L)).recipes, 129⟩ =
        some (.error .maxDepthExceeded) := by
      rw [run_craftLoop_succ, if_neg hav0, hrecipeErr]
    rw [run_haveOrCraft_withRecipe (g + 3) ⟨1, nm 129⟩ false
        ⟨[], [], [], (Context.new (lineProg L)).recipes, 129⟩ (chainRecipe 129)
        Nat.one_ne_zero hrec]
    show (match run (g + 3) (.craftLoop (nm 129) 1 (chainRecipe 129))
          (⟨[], [], [], (Context.new (lineProg L)).recipes, 129⟩ : Context) with
      | some (.ok ctx') =>
        if false then some (.ok (transferToOutput ctx' ⟨1, nm 129⟩))
        else some (.ok ctx')
      | other => other) = some (.error .maxDepthExceeded)
    rw [hcraftErr]
  | succ d ih =>
    intro i fuel hi hf
    obtain ⟨g, rfl⟩ : ∃ g, fuel = g + 5 := ⟨fuel - 5, by omega⟩
    have hiL : i < L := by omega
    have hdepth : ¬ (⟨[], [], [], (Context.new (lineProg L)).recipes, i⟩ :
        Context).depth > MAX_DEPTH := by
      show ¬ i > 128
      omega
    have hrec : getRecipe (Context.new (lineProg L)).recipes (nm i) =
        some (chainRecipe i) := by
      rw [getRecipe_lineProg]
      exact if_pos hiL
    have hav0 : ¬ (1 : Nat) ≤ getCountD (⟨[], [], [],
        (Context.new (lineProg L)).recipes, i⟩ : Context).items_available (nm i) := by
      show ¬ (1 : Nat) ≤ (0 : Nat)
      omega
    have hinner := ih (i + 1) (g + 1) (by omega) (by omega)
    have hinputsErr : run (g + 2) (.evalInputs [⟨1, nm (i + 1)⟩])
        ⟨[], [], [], (Context.new (lineProg L)).recipes, i + 1⟩ =
        some (.error .maxDepthExceeded) := by
      rw [run_evalInputs_cons, hinner]
    have hrecipeErr : run (g + 3) (.evalRecipe (chainRecipe i))
        ⟨[], [], [], (Context.new (lineProg L)).recipes, i⟩ =
        some (.error .maxDepthExceeded) := by
      rw [run_evalRecipe_succ, if_neg hdepth]
      show (match run (g + 2) (.evalInputs [⟨1, nm (i + 1)⟩])
            (⟨[], [], [], (Context.new (lineProg L)).recipes, i + 1⟩ : Context) with
        | some (.ok ctx') =>
          some (.ok { addItems ctx' ⟨1, nm i⟩ with depth := ctx'.depth - 1 })
        | other => other) = some (.error .maxDepthExceeded)
      rw [hinputsErr]
    have hcraftErr : run (g + 4) (.craftLoop (nm i) 1 (chainRecipe i))
        ⟨[], [], [], (Context.new (lineProg L)).recipes, i⟩ =
        some (.error .maxDepthExceeded) := by
      rw [run_craftLoop_succ, if_neg hav0, hrecipeErr]
    rw [run_haveOrCraft_withRecipe (g + 4) ⟨1, nm i⟩ false
        ⟨[], [], [], (Context.new (lineProg L)).recipes, i⟩ (chainRecipe i)
        Nat.one_ne_zero hrec]
    show (match run (g + 4) (.craftLoop (nm i) 1 (chainRecipe i))
          (⟨[], [], [], (Context.new (lineProg L)).recipes, i⟩ : Context) with
      | some (.ok ctx') =>
        if false then some (.ok (transferToOutput ctx' ⟨1, nm i⟩))
        else some (.ok ctx')
      | other => other) = some (.error .maxDepthExceeded)
    rw [hcraftErr]

/-- A chain longer than 129 makes `evaluate` fail with `MaxDepthExceeded`:
the descent reaches depth 129 with a recipe still to expand, and the error
aborts the whole evaluation. -/
theorem chain_eval_err (L fuel : Nat) (hL : 130 ≤ L) (hf : 524 ≤ fuel) :
    evaluate fuel (lineProg L) = some (.error .maxDepthExceeded) := by
  obtain ⟨g, rfl⟩ : ∃ g, fuel = g + 7 := ⟨fuel - 7, by omega⟩
  have hdepth0 : ¬ (⟨[], [], [], (Context.new (lineProg L)).recipes, 0⟩ :
      Context).depth > MAX_DEPTH := by
    show ¬ (0 : Nat) > 128
    omega
  have hrec0 : getRecipe (Context.new (lineProg L)).recipes (nm 0) =
      some (chainRecipe 0) := by
    rw [getRecipe_lineProg]
    exact if_pos (by omega)
  have hav00 : ¬ (1 : Nat) ≤ getCountD (⟨[], [], [],
      (Context.new (lineProg L)).recipes, 0⟩ : Context).items_available (nm 0) := by
    show ¬ (1 : Nat) ≤ (0 : Nat)
    omega
  have hinner := chain_descend_err L hL 128 1 (g + 2) (by omega) (by omega)
  have hinputsErr : run (g + 3) (.evalInputs [⟨1, nm 1⟩])
      ⟨[], [], [], (Context.new (lineProg L)).recipes, 1⟩ =
      some (.error .maxDepthExceeded) := by
    rw [run_evalInputs_cons, hinner]
  have hrecipeErr : run (g + 4) (.evalRecipe (chainRecipe 0))
      ⟨[], [], [], (Context.new (lineProg L)).recipes, 0⟩ =
      some (.error .maxDepthExceeded) := by
    rw [run_evalRecipe_succ, if_neg hdepth0]
    show (match run (g + 3) (.evalInputs [⟨1, nm 1⟩])
          (⟨[], [], [], (Context.new (lineProg L)).recipes, 1⟩ : Context) with
      | some (.ok ctx') =>
        some (.ok { addItems ctx' ⟨1, nm 0⟩ with depth := ctx'.depth - 1 })
      | other => other) = some (.error .maxDepthExceeded)
    rw [hinputsErr]
  have hcraftErr : run (g + 5) (.craftLoop (nm 0) 1 (chainRecipe 0))
      ⟨[], [], [], (Context.new (lineProg L)).recipes, 0⟩ =
      some (.error .maxDepthExceeded) := by
    rw [run_craftLoop_succ, if_neg hav00, hrecipeErr]
  have htopErr : run (g + 6) (.haveOrCraft ⟨1, nm 0⟩ true)
      ⟨[], [], [], (Context.new (lineProg L)).recipes, 0⟩ =
      some (.error .maxDepthExceeded) := by
    rw [run_haveOrCraft_withRecipe (g + 5) ⟨1, nm 0⟩ true
        ⟨[], [], [], (Context.new (lineProg L)).recipes, 0⟩ (chainRecipe 0)
        Nat.one_ne_zero hrec0]
    show (match run (g + 5) (.craftLoop (nm 0) 1 (chainRecipe 0))
          (⟨[], [], [], (Context.new (lineProg L)).recipes, 0⟩ : Context) with
      | some (.ok ctx') =>
        if true then some (.ok (transferToOutput ctx' ⟨1, nm 0⟩))
        else some (.ok ctx')
      | other => other) = some (.error .maxDepthExceeded)
    rw [hcraftErr]
  show (match run (g + 7) (.evalNeeds [⟨1, nm 0⟩])
      (⟨[], [], [], (Context.new (lineProg L)).recipes, 0⟩ : Context) with
    | some (.ok ctx) => some (.ok (cleanup ctx))
    | other => other) = some (.error .maxDepthExceeded)
  rw [run_evalNeeds_cons, htopErr]

/-- The missing-items view of a run that ended in `Ok`: the needed map,
sorted.  (Stated with a symbolic result so the evaluation itself is never
re-run when the lemma is applied.) -/
theorem evalMissing_of_evaluate (fuel : Nat) (p : Program) (ctx : Context)
    (h : evaluate fuel p = some (.ok ctx)) :
    evalMissing fuel p = some (getNeededItems ctx) := by
  unfold evalMissing
  rw [h]

/-- A run that ended in `Ok` counts as successful. -/
theorem isOkResult_of_ok (r : EvalResult) (ctx : Context)
    (h : r = some (.ok ctx)) : isOkResult r = true := by
  rw [h]
  rfl

/-- Claim C4 (counterexample): a linear recipe chain (`lineProg 129`) whose
need takes 129 nested craft operations — more than `MAX_DEPTH = 128` — still
succeeds, reporting only the chain's base item as missing: `evaluate_recipe`
checks `depth > MAX_DEPTH` *before* incrementing, so up to 129 simultaneously
nested calls pass the guard.  The claim says evaluation fails exactly when
more than 128 nested craft operations are required. -/
theorem depth_129_chain_succeeds :
    evalMissing 2000 (lineProg 129) = some [⟨1, nm 129⟩] := by
  have h1 := evalMissing_of_evaluate 2000 (lineProg 129) _
    (chain_eval_ok 129 2000 (by omega) (by omega) (by omega))
  have h2 : getNeededItems (cleanup (transferToOutput
      (⟨chainAvail 129 0, [], [(nm 129, 1)],
        (Context.new (lineProg 129)).recipes, 0⟩ : Context) ⟨1, nm 0⟩)) =
      [⟨1, nm 129⟩] := rfl
  rw [h1, h2]

/-- Claim C4 (amended): the depth guard admits one more nesting level than
`MAX_DEPTH` suggests: the linear chain needing 129 nested crafts succeeds,
the chain needing 130 fails with `MaxDepthExceeded` (the only error variant),
and a recipe whose output appears directly among its own inputs, with no
stock, also fails with `MaxDepthExceeded`; the error aborts the whole
evaluation with no partial result. -/
theorem depth_guard_cutoff_at_129 :
    evaluate 2000 (lineProg 130) = some (.error .maxDepthExceeded) ∧
    isOkResult (evaluate 2000 (lineProg 129)) = true ∧
    evaluate 600 selfCycProg = some (.error .maxDepthExceeded) := by
  exact ⟨chain_eval_err 130 2000 (by omega) (by omega),
    isOkResult_of_ok _ _ (chain_eval_ok 129 2000 (by omega) (by omega) (by omega)),
    by decide⟩

/-! ## Result views: pruned, sorted, storage-order independent (claim C10) -/

theorem charListLe_total : ∀ a b : List Char, charListLe a b = true ∨ charListLe b a = true := by
  intro a
  induction a with
  | nil => intro b; exact Or.inl rfl
  | cons x xs ih =>
    intro b
    cases b with
    | nil => exact Or.inr rfl
    | cons y ys =>
      by_cases h1 : x.toNat < y.toNat
      · exact Or.inl (by simp [charListLe, h1])
      · by_cases h2 : y.toNat < x.toNat
        · exact Or.inr (by simp [charListLe, h2])
        · rcases ih ys with h | h
          · exact Or.inl (by simpa [charListLe, h1, h2] using h)
          · exact Or.inr (by simpa [charListLe, h1, h2] using h)

theorem charListLe_trans :
    ∀ a b c : List Char, charListLe a b = true → charListLe b c = true →
      charListLe a c = true := by
  intro a
  induction a with
  | nil => intro b c _ _; rfl
  | cons x xs ih =>
    intro b c hab hbc
    cases b with
    | nil => simp [charListLe] at hab
    | cons y ys =>
      cases c with
      | nil => simp [charListLe] at hbc
      | cons z zs =>
        simp only [charListLe] at hab hbc ⊢
        by_cases h1 : x.toNat < y.toNat
        · by_cases h3 : y.toNat < z.toNat
          · simp [show x.toNat < z.toNat from by omega]
          · by_cases h4 : z.toNat < y.toNat
            · rw [if_neg h3, if_pos h4] at hbc; simp at hbc
            · simp [show x.toNat < z.toNat from by omega]
        · by_cases h2 : y.toNat < x.toNat
          · rw [if_neg h1, if_pos h2] at hab; simp at hab
          · rw [if_neg h1, if_neg h2] at hab
            by_cases h3 : y.toNat < z.toNat
            · simp [show x.toNat < z.toNat from by omega]
            · by_cases h4 : z.toNat < y.toNat
              · rw [if_neg h3, if_pos h4] at hbc; simp at hbc
              · rw [if_neg h3, if_neg h4] at hbc
                rw [if_neg (show ¬x.toNat < z.toNat from by omega),
                  if_neg (show ¬z.toNat < x.toNat from by omega)]
                exact ih ys zs hab hbc

theorem charListLe_antisymm :
    ∀ a b : List Char, charListLe a b = true → charListLe b a = true → a = b := by
  intro a
  induction a with
  | nil =>
    intro b _ hba
    cases b with
    | nil => rfl
    | cons y ys => simp [charListLe] at hba
  | cons x xs ih =>
    intro b hab hba
    cases b with
    | nil => simp [charListLe] at hab
    | cons y ys =>
      simp only [charListLe] at hab hba
      by_cases h1 : x.toNat < y.toNat
      · have h2 : ¬y.toNat < x.toNat := by omega
        rw [if_neg h2, if_pos h1] at hba; simp at hba
      · by_cases h2 : y.toNat < x.toNat
        · rw [if_neg h1, if_pos h2] at hab; simp at hab
        · have hxy : x = y :=
            Char.eq_of_val_eq (UInt32.ext (show x.toNat = y.toNat from by omega))
          rw [if_neg h1, if_neg h2] at hab
          rw [if_neg h2, if_neg h1] at hba
          rw [hxy, ih ys hab hba]

instance : IsTotal ItemStack stackLe := ⟨fun a b => charListLe_total _ _⟩

instance : IsTrans ItemStack stackLe := ⟨fun _ _ _ => charListLe_trans _ _ _⟩

theorem item_eq_of_stackLe_antisymm (a b : ItemStack) (h1 : stackLe a b) (h2 : stackLe b a) :
    a.item = b.item := by
  have hd : a.item.data = b.item.data := charListLe_antisymm _ _ h1 h2
  cases hi : a.item
  cases hj : b.item
  rw [hi, hj] at hd
  simp only at hd
  rw [hd]

/-- The missing list only depends on the extensional content of the needed
map: two maps with the same entries in any storage order sort to the same
list, provided the keys are distinct (as they are in a `HashMap`). -/
theorem sort_eq_of_perm_nodup_keys (m₁ m₂ : CountMap) (hperm : m₁.Perm m₂)
    (hnodup : (m₂.map Prod.fst).Nodup) :
    List.insertionSort stackLe (m₁.map (fun kv => (⟨kv.2, kv.1⟩ : ItemStack))) =
      List.insertionSort stackLe (m₂.map (fun kv => (⟨kv.2, kv.1⟩ : ItemStack))) := by
  set f : Item × Nat → ItemStack := fun kv => ⟨kv.2, kv.1⟩ with hf
  have hitem : ∀ m : CountMap, (m.map f).map (fun s => s.item) = m.map Prod.fst := by
    intro m
    rw [List.map_map]
    rfl
  set s₁ := List.insertionSort stackLe (m₁.map f)
  set s₂ := List.insertionSort stackLe (m₂.map f)
  have hp : s₁.Perm s₂ :=
    (List.perm_insertionSort stackLe (m₁.map f)).trans
      ((hperm.map f).trans (List.perm_insertionSort stackLe (m₂.map f)).symm)
  have hnames₂ : (s₂.map (fun s => s.item)).Nodup := by
    have h1 : s₂.Perm (m₂.map f) := List.perm_insertionSort stackLe (m₂.map f)
    have := (h1.map (fun s => s.item)).nodup_iff
    rw [this, hitem]
    exact hnodup
  have hnames₁ : (s₁.map (fun s => s.item)).Nodup := by
    have := (hp.map (fun s => s.item)).nodup_iff
    rw [this]
    exact hnames₂
  have hpair₁ : List.Pairwise (fun a b : ItemStack => a.item ≠ b.item) s₁ :=
    List.pairwise_map.mp hnames₁
  have hpair₂ : List.Pairwise (fun a b : ItemStack => a.item ≠ b.item) s₂ :=
    List.pairwise_map.mp hnames₂
  have hs₁ : List.Sorted (fun a b : ItemStack => stackLe a b ∧ a.item ≠ b.item) s₁ :=
    (List.sorted_insertionSort stackLe (m₁.map f)).and hpair₁
  have hs₂ : List.Sorted (fun a b : ItemStack => stackLe a b ∧ a.item ≠ b.item) s₂ :=
    (List.sorted_insertionSort stackLe (m₂.map f)).and hpair₂
  haveI : IsAntisymm ItemStack (fun a b : ItemStack => stackLe a b ∧ a.item ≠ b.item) :=
    ⟨fun a b hab hba =>
      absurd (item_eq_of_stackLe_antisymm a b hab.1 hba.1) hab.2⟩
  exact List.eq_of_perm_of_sorted hp hs₁ hs₂

theorem tryUseItem_needed (ctx : Context) (s : ItemStack) :
    (tryUseItem ctx s).2.items_needed = ctx.items_needed := by
  cases hg : getCount ctx.items_available s.item <;> simp [tryUseItem, hg]

theorem registerNeedItem_needed (ctx : Context) (s : ItemStack) :
    (registerNeedItem ctx s).items_needed =
      addCount ctx.items_needed s.item (tryUseItem ctx s).1 := by
  simp [registerNeedItem, tryUseItem_needed]

theorem transferToOutput_needed (ctx : Context) (s : ItemStack) :
    (transferToOutput ctx s).items_needed = ctx.items_needed := rfl

theorem addItems_needed (ctx : Context) (s : ItemStack) :
    (addItems ctx s).items_needed = ctx.items_needed := rfl

/-- Every context the engine hands back keeps the needed map's keys distinct
(the only mutation of `items_needed` is the keyed insert in
`register_need_item`). -/
theorem run_ok_needed_nodup :
    ∀ (fuel : Nat) (c : Call) (ctx ctx' : Context),
      run fuel c ctx = some (.ok ctx') →
      (ctx.items_needed.map Prod.fst).Nodup →
      (ctx'.items_needed.map Prod.fst).Nodup := by
  intro fuel
  induction fuel with
  | zero => intro c ctx ctx' h _; cases h
  | succ fuel ih =>
    intro c ctx ctx' h hn
    cases c with
    | haveOrCraft s top =>
      simp only [run] at h
      by_cases hc : (tryUseItem ctx s).1 = 0
      · rw [if_pos hc] at h
        cases top with
        | true =>
          obtain rfl : transferToOutput (tryUseItem ctx s).2 s = ctx' := by
            have h' : (some (Except.ok (transferToOutput (tryUseItem ctx s).2 s)) :
                EvalResult) = some (Except.ok ctx') := h
            cases h'; rfl
          rw [transferToOutput_needed, tryUseItem_needed]
          exact hn
        | false =>
          obtain rfl : (tryUseItem ctx s).2 = ctx' := by
            have h' : (some (Except.ok (tryUseItem ctx s).2) : EvalResult) =
              some (Except.ok ctx') := h
            cases h'; rfl
          rw [tryUseItem_needed]
          exact hn
      · rw [if_neg hc] at h
        cases hrec : getRecipe (tryUseItem ctx s).2.recipes s.item with
        | some recipe =>
          rw [hrec] at h
          replace h : (match run fuel (.craftLoop s.item (tryUseItem ctx s).1 recipe)
              (tryUseItem ctx s).2 with
            | some (.ok c) =>
              if top = true then some (.ok (transferToOutput c s)) else some (.ok c)
            | other => other) = some (.ok ctx') := h
          cases hloop : run fuel (.craftLoop s.item (tryUseItem ctx s).1 recipe)
              (tryUseItem ctx s).2 with
          | none => rw [hloop] at h; exact absurd h (by simp)
          | some r =>
            rw [hloop] at h
            cases r with
            | error e =>
              exact absurd (show (some (Except.error e) : EvalResult) =
                some (Except.ok ctx') from h) (by simp)
            | ok ctx2 =>
              have hn2 := ih _ _ _ hloop (by rw [tryUseItem_needed]; exact hn)
              cases top with
              | true =>
                obtain rfl : transferToOutput ctx2 s = ctx' := by
                  have h' : (some (Except.ok (transferToOutput ctx2 s)) : EvalResult) =
                    some (Except.ok ctx') := h
                  cases h'; rfl
                rw [transferToOutput_needed]
                exact hn2
              | false =>
                obtain rfl : ctx2 = ctx' := by
                  have h' : (some (Except.ok ctx2) : EvalResult) =
                    some (Except.ok ctx') := h
                  cases h'; rfl
                exact hn2
        | none =>
          rw [hrec] at h
          have hn2 : ((registerNeedItem (tryUseItem ctx s).2
              ⟨(tryUseItem ctx s).1, s.item⟩).items_needed.map Prod.fst).Nodup := by
            rw [registerNeedItem_needed, tryUseItem_needed]
            exact nodup_keys_addCount _ _ _ hn
          cases top with
          | true =>
            obtain rfl : transferToOutput (registerNeedItem (tryUseItem ctx s).2
                ⟨(tryUseItem ctx s).1, s.item⟩) s = ctx' := by
              have h' : (some (Except.ok (transferToOutput (registerNeedItem
                  (tryUseItem ctx s).2 ⟨(tryUseItem ctx s).1, s.item⟩) s)) : EvalResult) =
                some (Except.ok ctx') := h
              cases h'; rfl
            rw [transferToOutput_needed]
            exact hn2
          | false =>
            obtain rfl : registerNeedItem (tryUseItem ctx s).2
                ⟨(tryUseItem ctx s).1, s.item⟩ = ctx' := by
              have h' : (some (Except.ok (registerNeedItem (tryUseItem ctx s).2
                  ⟨(tryUseItem ctx s).1, s.item⟩)) : EvalResult) =
                some (Except.ok ctx') := h
              cases h'; rfl
            exact hn2
    | craftLoop target cn recipe =>
      simp only [run] at h
      by_cases hcond : cn ≤ getCountD ctx.items_available target
      · rw [if_pos hcond] at h
        obtain rfl : ctx = ctx' := by
          have h' : (some (Except.ok ctx) : EvalResult) = some (Except.ok ctx') := h
          cases h'; rfl
        exact hn
      · rw [if_neg hcond] at h
        cases hrec : run fuel (.evalRecipe recipe) ctx with
        | none => rw [hrec] at h; exact absurd h (by simp)
        | some r =>
          rw [hrec] at h
          cases r with
          | error e =>
            exact absurd (show (some (Except.error e) : EvalResult) =
              some (Except.ok ctx') from h) (by simp)
          | ok ctx2 =>
            exact ih _ _ _
              (show run fuel (.craftLoop target cn recipe) ctx2 = some (.ok ctx') from h)
              (ih _ _ _ hrec hn)
    | evalRecipe recipe =>
      simp only [run] at h
      by_cases hd : ctx.depth > MAX_DEPTH
      · rw [if_pos hd] at h
        exact absurd (show (some (Except.error EvaluationError.maxDepthExceeded) :
          EvalResult) = some (Except.ok ctx') from h) (by simp)
      · rw [if_neg hd] at h
        cases hinp : run fuel (.evalInputs recipe.inputs)
            { ctx with depth := ctx.depth + 1 } with
        | none => rw [hinp] at h; exact absurd h (by simp)
        | some r =>
          rw [hinp] at h
          cases r with
          | error e =>
            exact absurd (show (some (Except.error e) : EvalResult) =
              some (Except.ok ctx') from h) (by simp)
          | ok ctx2 =>
            obtain rfl : ({ addItems ctx2 recipe.output with
                depth := ctx2.depth - 1 } : Context) = ctx' := by
              have h' : (some (Except.ok ({ addItems ctx2 recipe.output with
                  depth := ctx2.depth - 1 } : Context)) : EvalResult) =
                some (Except.ok ctx') := h
              cases h'; rfl
            have hn2 := ih _ _ _ hinp
              (show (({ ctx with depth := ctx.depth + 1 } :
                Context).items_needed.map Prod.fst).Nodup from hn)
            show ((addItems ctx2 recipe.output).items_needed.map Prod.fst).Nodup
            rw [addItems_needed]
            exact hn2
    | evalInputs inputs =>
      cases inputs with
      | nil =>
        simp only [run] at h
        obtain rfl : ctx = ctx' := by
          have h' : (some (Except.ok ctx) : EvalResult) = some (Except.ok ctx') := h
          cases h'; rfl
        exact hn
      | cons i rest =>
        simp only [run] at h
        cases hhave : run fuel (.haveOrCraft i false) ctx with
        | none => rw [hhave] at h; exact absurd h (by simp)
        | some r =>
          rw [hhave] at h
          cases r with
          | error e =>
            exact absurd (show (some (Except.error e) : EvalResult) =
              some (Except.ok ctx') from h) (by simp)
          | ok ctx2 =>
            exact ih _ _ _
              (show run fuel (.evalInputs rest) ctx2 = some (.ok ctx') from h)
              (ih _ _ _ hhave hn)
    | evalNeeds needs =>
      cases needs with
      | nil =>
        simp only [run] at h
        obtain rfl : ctx = ctx' := by
          have h' : (some (Except.ok ctx) : EvalResult) = some (Except.ok ctx') := h
          cases h'; rfl
        exact hn
      | cons n rest =>
        simp only [run] at h
        cases hhave : run fuel (.haveOrCraft n true) ctx with
        | none => rw [hhave] at h; exact absurd h (by simp)
        | some r =>
          rw [hhave] at h
          cases r with
          | error e =>
            exact absurd (show (some (Except.error e) : EvalResult) =
              some (Except.ok ctx') from h) (by simp)
          | ok ctx2 =>
            exact ih _ _ _
              (show run fuel (.evalNeeds rest) ctx2 = some (.ok ctx') from h)
              (ih _ _ _ hhave hn)

theorem cleanup_needed (ctx : Context) :
    (cleanup ctx).items_needed = ctx.items_needed.filter (fun kv => kv.2 != 0) := rfl

theorem cleanup_avail (ctx : Context) :
    (cleanup ctx).items_available = ctx.items_available.filter (fun kv => kv.2 != 0) := rfl

theorem evaluate_ok_decomp (fuel : Nat) (p : Program) (ctx : Context)
    (h : evaluate fuel p = some (.ok ctx)) :
    ∃ c0, run fuel (.evalNeeds p.need_section) (Context.new p) = some (.ok c0) ∧
      ctx = cleanup c0 := by
  unfold evaluate needsLoop at h
  cases hrun : run fuel (.evalNeeds p.need_section) (Context.new p) with
  | none => rw [hrun] at h; exact absurd h (by simp)
  | some r =>
    rw [hrun] at h
    cases r with
    | error e =>
      exact absurd (show (some (Except.error e) : EvalResult) =
        some (Except.ok ctx) from h) (by simp)
    | ok c0 =>
      obtain rfl : cleanup c0 = ctx := by
        have h' : (some (Except.ok (cleanup c0)) : EvalResult) =
          some (Except.ok ctx) := h
        cases h'; rfl
      exact ⟨c0, rfl, rfl⟩

set_option maxHeartbeats 1000000 in
/-- Claim C10: whenever `evaluate` succeeds, the reported missing list has no
zero-count entry and is sorted by raw code-point order of the item names, the
available map after `cleanup` has no zero-count entry, and the missing list
depends only on the extensional content of the needed map, not on the hash
map's storage order. -/
theorem result_views_pruned_sorted_deterministic (p : Program) (fuel : Nat) (ctx : Context)
    (h : evaluate fuel p = some (.ok ctx)) : ResultViewProps ctx := by
  obtain ⟨c0, hrun, rfl⟩ := evaluate_ok_decomp fuel p ctx h
  have hnodup0 : (((Context.new p).items_needed).map Prod.fst).Nodup := by
    simp [Context.new]
  have hnodup : ((c0.items_needed).map Prod.fst).Nodup :=
    run_ok_needed_nodup fuel _ _ _ hrun hnodup0
  have hnodupc : (((cleanup c0).items_needed).map Prod.fst).Nodup := by
    rw [cleanup_needed]
    exact ((List.filter_sublist _).map Prod.fst).nodup hnodup
  refine ⟨?_, ?_, ?_, ?_⟩
  · intro s hs
    have hs' : s ∈ (cleanup c0).items_needed.map (fun kv => (⟨kv.2, kv.1⟩ : ItemStack)) :=
      (List.perm_insertionSort stackLe _).mem_iff.mp hs
    obtain ⟨kv, hkv, rfl⟩ := List.mem_map.mp hs'
    rw [cleanup_needed] at hkv
    have := (List.mem_filter.mp hkv).2
    simpa using this
  · exact List.sorted_insertionSort stackLe _
  · intro kv hkv
    rw [cleanup_avail] at hkv
    have := (List.mem_filter.mp hkv).2
    simpa using this
  · intro m hm
    exact sort_eq_of_perm_nodup_keys m (cleanup c0).items_needed hm hnodupc

/-- Claim C10 (witness): the properties hold of the concrete context reported
for `need: 1 out / have: 1 in / recipes: 1 out = 1 in`. -/
theorem result_views_witness :
    evaluate 20 craftOneProg = some (.ok craftOneCtx) ∧ ResultViewProps craftOneCtx :=
  ⟨by decide, result_views_pruned_sorted_deterministic craftOneProg 20 craftOneCtx (by decide)⟩

/-- Claim C9: when a program's recipe section declares two recipes with the
same output item, the recipe index built by `Context::new` retains exactly the
later declaration (later inserts overwrite earlier ones); construction is a
total function, so this is never an error. -/
theorem later_recipe_replaces_earlier (p : Program) (x : Item) :
    getRecipe (Context.new p).recipes x = lastRecipeFor p x := by
  show getRecipe (p.recipe_section.foldl (fun m r => setRecipe m r.output.item r) []) x =
    lastRecipeFor p x
  rw [getRecipe_foldl_setRecipe]
  simp [getRecipe, lastRecipeFor]

end RecipeCalc
